import Mathlib

/-!
Verification development for the spline-based continuum/star normalization and
matched-filter detection engine of src/breads/instruments/jwstnirspec_cal.py.

The Python code computes with IEEE-754 doubles whose special values (NaN and
the two infinities) carry the "excluded pixel" semantics the code relies on.
We embed doubles as the type F below: an exact fraction (integer numerator,
positive denominator), or positive infinity, negative infinity, NaN.  All
arithmetic follows IEEE-754/numpy semantics (NaN is absorbing, comparisons
with NaN are false, finite division by zero gives a signed infinity, 0/0
gives NaN).  Rounding is not modelled: the claims under study are about the
NaN/shape structure of the computations, not about rounding error.

Fractions are kept unnormalized (no gcd reduction) so that every operation
is a small structural computation that the kernel can evaluate; `Q.val`
interprets a fraction in ℚ and is used in proofs only.
-/

/-- An exact fraction: numerator `n`, denominator `dm + 1` (hence always a
positive denominator, so every `Q` value is well formed by construction). -/
structure Q where
  n : ℤ
  dm : ℕ
deriving DecidableEq, Repr

namespace Q

/-- The denominator, as a positive integer. -/
def den (q : Q) : ℤ := (q.dm : ℤ) + 1

/-- Value of the fraction in ℚ (used only in proofs, never evaluated). -/
def val (q : Q) : ℚ := (q.n : ℚ) / ((q.dm : ℚ) + 1)

/-- Build a fraction from an integer denominator known to be positive;
falls back to denominator 1 if the argument is not positive. -/
def ofDen (n : ℤ) (d : ℤ) : Q := ⟨n, d.toNat - 1⟩

def ofInt (z : ℤ) : Q := ⟨z, 0⟩

instance : OfNat Q m := ⟨⟨(m : ℤ), 0⟩⟩

def add (a b : Q) : Q := ⟨a.n * b.den + b.n * a.den, a.dm + b.dm + a.dm * b.dm⟩

def neg (a : Q) : Q := ⟨-a.n, a.dm⟩

def sub (a b : Q) : Q := add a (neg b)

def mul (a b : Q) : Q := ⟨a.n * b.n, a.dm + b.dm + a.dm * b.dm⟩

/-- Exact division; only meaningful when `b.n ≠ 0` (the float layer checks
for zero divisors before calling this). -/
def div (a b : Q) : Q :=
  if 0 ≤ b.n then ofDen (a.n * b.den) (a.den * b.n)
  else ofDen (-(a.n * b.den)) (a.den * (-b.n))

def babs (a : Q) : Q := ⟨|a.n|, a.dm⟩

def blt (a b : Q) : Bool := decide (a.n * b.den < b.n * a.den)

def ble (a b : Q) : Bool := decide (a.n * b.den ≤ b.n * a.den)

def beq (a b : Q) : Bool := decide (a.n * b.den = b.n * a.den)

def isZero (a : Q) : Bool := decide (a.n = 0)

def isNeg (a : Q) : Bool := decide (a.n < 0)

def isPos (a : Q) : Bool := decide (0 < a.n)

end Q

/-- IEEE-754 double as used by the numpy code: an exact finite value, one of
the two infinities, or NaN. -/
inductive F where
  | fq (q : Q)
  | pinf
  | ninf
  | nan
deriving DecidableEq, Repr

namespace F

def isnan : F → Bool
  | nan => true
  | _ => false

def isfinite : F → Bool
  | fq _ => true
  | _ => false

def neg : F → F
  | fq q => fq (Q.neg q)
  | pinf => ninf
  | ninf => pinf
  | nan => nan

def add : F → F → F
  | nan, _ => nan
  | _, nan => nan
  | fq a, fq b => fq (Q.add a b)
  | pinf, ninf => nan
  | ninf, pinf => nan
  | pinf, _ => pinf
  | _, pinf => pinf
  | ninf, _ => ninf
  | _, ninf => ninf

def sub (a b : F) : F := add a (neg b)

def mul : F → F → F
  | nan, _ => nan
  | _, nan => nan
  | fq a, fq b => fq (Q.mul a b)
  | pinf, fq b => if Q.isPos b then pinf else if Q.isNeg b then ninf else nan
  | ninf, fq b => if Q.isPos b then ninf else if Q.isNeg b then pinf else nan
  | fq a, pinf => if Q.isPos a then pinf else if Q.isNeg a then ninf else nan
  | fq a, ninf => if Q.isPos a then ninf else if Q.isNeg a then pinf else nan
  | pinf, pinf => pinf
  | pinf, ninf => ninf
  | ninf, pinf => ninf
  | ninf, ninf => pinf

def div : F → F → F
  | nan, _ => nan
  | _, nan => nan
  | fq a, fq b =>
      if Q.isZero b then
        (if Q.isPos a then pinf else if Q.isNeg a then ninf else nan)
      else fq (Q.div a b)
  | pinf, fq b => if Q.isNeg b then ninf else pinf
  | ninf, fq b => if Q.isNeg b then pinf else ninf
  | fq _, pinf => fq 0
  | fq _, ninf => fq 0
  | _, _ => nan

def babs : F → F
  | fq q => fq (Q.babs q)
  | pinf => pinf
  | ninf => pinf
  | nan => nan

/-- Strict less-than, numpy semantics: any comparison with NaN is false. -/
def blt : F → F → Bool
  | nan, _ => false
  | _, nan => false
  | fq a, fq b => Q.blt a b
  | fq _, pinf => true
  | ninf, fq _ => true
  | ninf, pinf => true
  | _, _ => false

def ble : F → F → Bool
  | nan, _ => false
  | _, nan => false
  | fq a, fq b => Q.ble a b
  | fq _, pinf => true
  | ninf, _ => true
  | pinf, pinf => true
  | _, _ => false

/-- Equality test, numpy semantics: NaN is not equal to anything. -/
def beq : F → F → Bool
  | fq a, fq b => Q.beq a b
  | pinf, pinf => true
  | ninf, ninf => true
  | _, _ => false

/-- numpy `!=`: NaN is unequal to everything (incl. itself). -/
def bne (a b : F) : Bool := !(beq a b)

end F

/-- numpy sum (left fold, starting from 0). -/
def sumF (l : List F) : F := l.foldl F.add (F.fq 0)

/-- numpy nansum: NaN entries count as 0; empty list sums to 0. -/
def nansum (l : List F) : F := sumF (l.map (fun x => if x.isnan then F.fq 0 else x))

def maxF (a b : F) : F := if F.blt a b then b else a

/-- numpy nanmax: maximum of the non-NaN entries, NaN if there are none. -/
def nanmax (l : List F) : F :=
  match l.filter (fun x => !x.isnan) with
  | [] => F.nan
  | x :: xs => xs.foldl maxF x

/-- Total ordering used for sorting (NaN sorts to the end, as in numpy). -/
def sortLe : F → F → Bool
  | F.ninf, _ => true
  | _, F.ninf => false
  | F.fq a, F.fq b => Q.ble a b
  | F.fq _, _ => true
  | _, F.fq _ => false
  | F.pinf, _ => true
  | _, F.pinf => false
  | F.nan, F.nan => true

def insertSortedBy {a : Type} (le : a → a → Bool) (x : a) : List a → List a
  | [] => [x]
  | y :: ys => if le x y then x :: y :: ys else y :: insertSortedBy le x ys

/-- Insertion sort (models numpy sort/argsort; stable, total order given by le). -/
def sortByF {a : Type} (le : a → a → Bool) : List a → List a
  | [] => []
  | x :: xs => insertSortedBy le x (sortByF le xs)

def sortF (l : List F) : List F := sortByF sortLe l

/-- numpy median: NaN if the list is empty or contains a NaN, otherwise the
middle element of the sorted list (mean of the two middle ones for even
length). -/
def median (l : List F) : F :=
  if l.isEmpty then F.nan
  else if l.any F.isnan then F.nan
  else
    let s := sortF l
    let m := l.length
    if m % 2 = 1 then s.getD (m / 2) F.nan
    else F.div (F.add (s.getD (m / 2 - 1) F.nan) (s.getD (m / 2) F.nan)) (F.fq 2)

/-- numpy nanmedian: median of the non-NaN entries. -/
def nanmedian (l : List F) : F := median (l.filter (fun x => !x.isnan))

/-- scipy.stats.median_abs_deviation with default arguments: median of the
absolute deviations from the median (NaNs propagate). -/
def median_abs_deviation (l : List F) : F :=
  median (l.map (fun x => F.babs (F.sub x (median l))))

/-- numpy nanstd, parameterized by the square-root routine `s`
(numpy.sqrt is external): population standard deviation of the non-NaN
entries, NaN when there are none. -/
def nanstd (s : F → F) (l : List F) : F :=
  match l.filter (fun x => !x.isnan) with
  | [] => F.nan
  | v₀ :: v' =>
    let v := v₀ :: v'
    let m := F.div (sumF v) (F.fq (Q.ofInt v.length))
    s (F.div (sumF (v.map (fun x => F.mul (F.sub x m) (F.sub x m)))) (F.fq (Q.ofInt v.length)))

/-- What the claims need of an external square-root routine (numpy.sqrt);
satisfiable, see sqrtTriv. -/
def SqrtOK (s : F → F) : Prop :=
  s F.nan = F.nan ∧ s F.pinf = F.pinf ∧ s F.ninf = F.nan ∧
  (∀ q, Q.isNeg q = true → s (F.fq q) = F.nan)

/-- A square-root stub satisfying SqrtOK (used by witnesses only). -/
def sqrtTriv : F → F
  | F.nan => F.nan
  | F.ninf => F.nan
  | F.pinf => F.pinf
  | F.fq q => if Q.isNeg q then F.nan else F.fq 0

/-- Comparison of a Python int against a float (numpy `n < x`; false against
NaN). -/
def natLtF (k : ℕ) (x : F) : Bool :=
  match x with
  | F.fq q => Q.blt (Q.ofInt k) q
  | F.pinf => true
  | _ => false

/-- Python int() applied to a float: truncation toward zero; raises
OverflowError on an infinity and ValueError on NaN. -/
def toIntF : F → Except String ℤ
  | F.fq q => Except.ok (Int.tdiv q.n q.den)
  | F.pinf => Except.error "OverflowError"
  | F.ninf => Except.error "OverflowError"
  | F.nan => Except.error "ValueError"

/-! ## Embedding of _task_normrows (src/breads/instruments/jwstnirspec_cal.py,
lines 2073-2208)

Arrays are indexed (row k, column j); the spline design matrix additionally
by node i.  The matrix `Mspline k` embeds the value of
get_spline_model(x_nodes, im_wvs_rows[k]) — get_spline_model lives in
breads.utils (spec section 4.1), an external collaborator of this file, so it
enters the embedding as data.  The bounded least-squares solver
scipy.optimize.lsq_linear is external as well and enters as the function
argument `solver`, applied to the sigma-weighted system exactly as in
`lsq_linear(M4fit / s4fit[:, None], d4fit / s4fit).x`. -/

structure NormRowsIn (nrows ncols nnodes : ℕ) where
  im : Fin nrows → Fin ncols → F
  noise : Fin nrows → Fin ncols → F
  badpix : Fin nrows → Fin ncols → F
  Mspline : Fin nrows → Fin ncols → Fin nnodes → F
  star_model : Fin nrows → Fin ncols → F
  threshold : F
  regularization : Bool
  reg_mean_map : Fin nrows → Fin nnodes → F
  reg_std_map : Fin nrows → Fin nnodes → F

/-- A least-squares solver (scipy lsq_linear): rows of the weighted design
matrix, weighted data vector, returns the coefficient vector. -/
def Solver : Type := List (List F) → List F → List F

namespace NormRows

variable {nrows ncols nnodes : ℕ}

/-- Line 2089-2091: a pixel enters the fit iff badpix, data, noise and the
star model are all finite and the noise is nonzero. -/
def usable (inp : NormRowsIn nrows ncols nnodes) (k : Fin nrows) (j : Fin ncols) : Bool :=
  (inp.badpix k j).isfinite && (inp.im k j).isfinite && (inp.noise k j).isfinite
    && F.bne (inp.noise k j) (F.fq 0) && (inp.star_model k j).isfinite

/-- where_data_finite (line 2089). -/
def wdf (inp : NormRowsIn nrows ncols nnodes) (k : Fin nrows) : List (Fin ncols) :=
  (List.finRange ncols).filter (usable inp k)

/-- Line 2119: M = M_spline[where_data_finite] * star_model (value at a pixel
and node). -/
def Mmat (inp : NormRowsIn nrows ncols nnodes) (k : Fin nrows) (j : Fin ncols)
    (i : Fin nnodes) : F :=
  F.mul (inp.Mspline k j i) (inp.star_model k j)

/-- np.nanmax(M) over the selected rows (lines 2122/2124). -/
def nmaxM (inp : NormRowsIn nrows ncols nnodes) (k : Fin nrows) : F :=
  nanmax ((wdf inp k).flatMap (fun j => (List.finRange nnodes).map (fun i => Mmat inp k j i)))

/-- The pruning threshold: nanmax(M) * 0.00001 with regularization,
nanmax(M) * 0.01 without (lines 2121-2124). -/
def pruneThresh (inp : NormRowsIn nrows ncols nnodes) (k : Fin nrows) : F :=
  F.mul (nmaxM inp k) (F.fq (if inp.regularization then ⟨1, 99999⟩ else ⟨1, 99⟩))

/-- validpara (lines 2121-2124): a column survives iff some selected row
exceeds the pruning threshold. -/
def validpara (inp : NormRowsIn nrows ncols nnodes) (k : Fin nrows) (i : Fin nnodes) : Bool :=
  (wdf inp k).any (fun j => F.blt (pruneThresh inp k) (Mmat inp k j i))

def validList (inp : NormRowsIn nrows ncols nnodes) (k : Fin nrows) : List (Fin nnodes) :=
  (List.finRange nnodes).filter (validpara inp k)

/-- Regularization rows kept: valid columns whose prior std is finite
(lines 2139-2146), tagged with their position among the valid columns. -/
def regPairs (inp : NormRowsIn nrows ncols nnodes) (k : Fin nrows) : List (ℕ × Fin nnodes) :=
  (validList inp k).enum.filter (fun ri => (inp.reg_std_map k ri.2).isfinite)

/-- The sigma-weighted design matrix M4fit / s4fit[:, None] (lines 2147-2156):
data rows then synthetic identity rows for the regularization prior. -/
def A4fit (inp : NormRowsIn nrows ncols nnodes) (k : Fin nrows) : List (List F) :=
  ((wdf inp k).map (fun j => (validList inp k).map (fun i => F.div (Mmat inp k j i) (inp.noise k j))))
    ++ (if inp.regularization then
          (regPairs inp k).map (fun ri =>
            (List.range (validList inp k).length).map (fun r2 =>
              F.div (if r2 = ri.1 then F.fq 1 else F.fq 0) (inp.reg_std_map k ri.2)))
        else [])

/-- The sigma-weighted data vector d4fit / s4fit. -/
def b4fit (inp : NormRowsIn nrows ncols nnodes) (k : Fin nrows) : List F :=
  ((wdf inp k).map (fun j => F.div (inp.im k j) (inp.noise k j)))
    ++ (if inp.regularization then
          (regPairs inp k).map (fun ri =>
            F.div (inp.reg_mean_map k ri.2) (inp.reg_std_map k ri.2))
        else [])

/-- p = lsq_linear(...).x (line 2156). -/
def pvec (solver : Solver) (inp : NormRowsIn nrows ncols nnodes) (k : Fin nrows) : List F :=
  solver (A4fit inp k) (b4fit inp k)

/-- paras_out[k, validpara[0]] = p (line 2157): valid columns receive the
solver coefficients in order, pruned columns keep their initial NaN. -/
def coeffAt (solver : Solver) (inp : NormRowsIn nrows ncols nnodes) (k : Fin nrows)
    (i : Fin nnodes) : F :=
  if validpara inp k i then (pvec solver inp k).getD ((validList inp k).indexOf i) F.nan
  else F.nan

/-- m = np.dot(M, p) (line 2159), at a selected pixel. -/
def modelAt (solver : Solver) (inp : NormRowsIn nrows ncols nnodes) (k : Fin nrows)
    (j : Fin ncols) : F :=
  sumF ((validList inp k).enum.map (fun ri =>
    F.mul (Mmat inp k j ri.2) ((pvec solver inp k).getD ri.1 F.nan)))

/-- Line 2112: a row with no usable pixel is skipped. -/
def rowProcessed (inp : NormRowsIn nrows ncols nnodes) (k : Fin nrows) : Bool :=
  !(wdf inp k).isEmpty

/-- norm_res_row (lines 2163-2164): NaN off the selected pixels,
(d - m)/d_err on them. -/
def normResRow (solver : Solver) (inp : NormRowsIn nrows ncols nnodes) (k : Fin nrows)
    (j : Fin ncols) : F :=
  if usable inp k j then
    F.div (F.sub (inp.im k j) (modelAt solver inp k j)) (inp.noise k j)
  else F.nan

/-- meddev = median_abs_deviation(norm_res_row[where_data_finite]) (line 2169). -/
def meddevRow (solver : Solver) (inp : NormRowsIn nrows ncols nnodes) (k : Fin nrows) : F :=
  median_abs_deviation ((wdf inp k).map (normResRow solver inp k))

/-- where_bad (line 2170): |norm_res|/meddev > threshold, or norm_res NaN. -/
def flaggedRow (solver : Solver) (inp : NormRowsIn nrows ncols nnodes) (k : Fin nrows)
    (j : Fin ncols) : Bool :=
  F.blt inp.threshold (F.div (F.babs (normResRow solver inp k j)) (meddevRow solver inp k))
    || (normResRow solver inp k j).isnan

end NormRows

structure NormRowsOut (nrows ncols nnodes : ℕ) where
  new_im : Fin nrows → Fin ncols → F
  new_noise : Fin nrows → Fin ncols → F
  new_badpix : Fin nrows → Fin ncols → F
  res : Fin nrows → Fin ncols → F
  paras : Fin nrows → Fin nnodes → F

/-- The complete per-chunk task _task_normrows: per row, either the
short-circuit of line 2112-2114 (row left as the input copies, residual row
NaN, coefficient row NaN) or the fit/score outputs of lines 2116-2171.
float32 rounding of new_im (line 2076) is not modelled. -/
def task_normrows {nrows ncols nnodes : ℕ} (solver : Solver)
    (inp : NormRowsIn nrows ncols nnodes) : NormRowsOut nrows ncols nnodes where
  new_im := fun k j =>
    if NormRows.rowProcessed inp k then
      (if NormRows.usable inp k j then NormRows.modelAt solver inp k j else inp.im k j)
    else inp.im k j
  new_noise := fun k j => inp.noise k j
  new_badpix := fun k j =>
    if NormRows.rowProcessed inp k then
      (if NormRows.flaggedRow solver inp k j then F.nan else inp.badpix k j)
    else inp.badpix k j
  res := fun k j =>
    if NormRows.rowProcessed inp k && NormRows.usable inp k j then
      F.sub (inp.im k j) (NormRows.modelAt solver inp k j)
    else F.nan
  paras := fun k i =>
    if NormRows.rowProcessed inp k then NormRows.coeffAt solver inp k i else F.nan

/-- Column maximum of the pruned design matrix over the selected rows
(what the spec calls the maximum value of a spline-basis column). -/
def colMax {nrows ncols nnodes : ℕ} (inp : NormRowsIn nrows ncols nnodes) (k : Fin nrows)
    (i : Fin nnodes) : F :=
  nanmax ((NormRows.wdf inp k).map (fun j => NormRows.Mmat inp k j i))

/-! ## Embedding of the regularization-prior maps

compute_starsubtraction, lines 1377-1383, and the iterative pass of
compute_starspectrum_contnorm, lines 1086-1089. -/

/-- np.clip(x, lo, hi) (numpy): NaN propagates, otherwise clamp. -/
def clipF (x lo hi : F) : F :=
  let y := if F.blt x lo then lo else x
  if F.blt hi y then hi else y

/-- The 1e-11 lower clip of compute_starsubtraction line 1383. -/
def epsClip : F := F.fq ⟨1, 99999999999⟩

/-- reg_mean_map of compute_starsubtraction (lines 1377-1379): the prior
coefficients, NaN entries replaced by the row nanmedian. -/
def starsub_reg_mean_map {nrows nnodes : ℕ} (spline_paras : Fin nrows → Fin nnodes → F)
    (k : Fin nrows) (i : Fin nnodes) : F :=
  if (spline_paras k i).isnan then
    nanmedian ((List.finRange nnodes).map (spline_paras k))
  else spline_paras k i

/-- reg_std_map of compute_starsubtraction (lines 1380-1383): abs of the
prior coefficients, NaN entries replaced by the row nanmax of abs, then
clipped below at 1e-11. -/
def starsub_reg_std_map {nrows nnodes : ℕ} (spline_paras : Fin nrows → Fin nnodes → F)
    (k : Fin nrows) (i : Fin nnodes) : F :=
  clipF
    (if (spline_paras k i).isnan then
      nanmax ((List.finRange nnodes).map (fun i2 => F.babs (spline_paras k i2)))
    else F.babs (spline_paras k i))
    epsClip F.pinf

/-- reg_mean_map1 of compute_starspectrum_contnorm (lines 1086-1088): the
fitted coefficients, NaN entries replaced by the zeroth-pass prior. -/
def contnorm_reg_mean_map1 {nrows nnodes : ℕ}
    (spline_paras reg_mean_map0 : Fin nrows → Fin nnodes → F)
    (k : Fin nrows) (i : Fin nnodes) : F :=
  if (spline_paras k i).isnan then reg_mean_map0 k i else spline_paras k i

/-- reg_std_map1 of compute_starspectrum_contnorm (line 1089): plain abs of
reg_mean_map1, with no clip at all. -/
def contnorm_reg_std_map1 {nrows nnodes : ℕ}
    (spline_paras reg_mean_map0 : Fin nrows → Fin nnodes → F)
    (k : Fin nrows) (i : Fin nnodes) : F :=
  F.babs (contnorm_reg_mean_map1 spline_paras reg_mean_map0 k i)

/-! ## Embedding of _task_normslice_2dspline (lines 2358-2420)

Pixels of the slice are flattened to one index.  The two 1-D spline design
matrices (get_spline_model at the rescaled spatial coordinate and at the
wavelength, lines 2372-2373; get_spline_model is in breads.utils, outside
this file) enter as data; the 2-D tensor-product design matrix of lines
2374-2376 has column (i, w) equal to their product, matching the
repeat/tile combination with flat column index i*n_wv + w, which is also
the np.ravel order of the regularization maps (line 2390) and of paras_out
(lines 2415-2418).

The guard of line 2368 protects only the assignment of ravel_im_ifuy; with
zero usable pixels the use of ravel_im_ifuy on line 2372 therefore raises
UnboundLocalError, which the embedding reflects as Except.error. -/

structure NormSliceIn (npix nifuy nwv : ℕ) where
  im : Fin npix → F
  im_wvs : Fin npix → F
  im_ifuy : Fin npix → F
  noise : Fin npix → F
  badpix : Fin npix → F
  star_model : Fin npix → F
  Mspl_ifuy : Fin npix → Fin nifuy → F
  Mspl_wvs : Fin npix → Fin nwv → F
  threshold : F
  reg_mean_map : Fin nifuy → Fin nwv → F
  reg_std_map : Fin nifuy → Fin nwv → F

structure NormSliceOut (npix nifuy nwv : ℕ) where
  new_im : Fin npix → F
  new_noise : Fin npix → F
  new_badpix : Fin npix → F
  res : Fin npix → F
  paras : Fin nifuy → Fin nwv → F

namespace NormSlice

variable {npix nifuy nwv : ℕ}

/-- bool_map of line 2366. -/
def usable (inp : NormSliceIn npix nifuy nwv) (p : Fin npix) : Bool :=
  (inp.badpix p).isfinite && (inp.im p).isfinite && (inp.noise p).isfinite
    && F.bne (inp.noise p) (F.fq 0) && (inp.star_model p).isfinite
    && (inp.im_ifuy p).isfinite

def wdf (inp : NormSliceIn npix nifuy nwv) : List (Fin npix) :=
  (List.finRange npix).filter (usable inp)

/-- Flat column order of the 2-D spline basis: i-major, matching
np.repeat/np.tile of lines 2374-2375 and np.ravel of line 2390. -/
def colList (nifuy nwv : ℕ) : List (Fin nifuy × Fin nwv) :=
  (List.finRange nifuy).flatMap (fun i => (List.finRange nwv).map (fun w => (i, w)))

/-- M = M_2dspline * star_model (lines 2376, 2381). -/
def Mmat (inp : NormSliceIn npix nifuy nwv) (p : Fin npix) (c : Fin nifuy × Fin nwv) : F :=
  F.mul (F.mul (inp.Mspl_ifuy p c.1) (inp.Mspl_wvs p c.2)) (inp.star_model p)

def nmaxM (inp : NormSliceIn npix nifuy nwv) : F :=
  nanmax ((wdf inp).flatMap (fun p => (colList nifuy nwv).map (fun c => Mmat inp p c)))

/-- Line 2384: validpara threshold nanmax(M) * 0.005. -/
def pruneThresh (inp : NormSliceIn npix nifuy nwv) : F :=
  F.mul (nmaxM inp) (F.fq ⟨1, 199⟩)

def validpara (inp : NormSliceIn npix nifuy nwv) (c : Fin nifuy × Fin nwv) : Bool :=
  (wdf inp).any (fun p => F.blt (pruneThresh inp) (Mmat inp p c))

def validList (inp : NormSliceIn npix nifuy nwv) : List (Fin nifuy × Fin nwv) :=
  (colList nifuy nwv).filter (validpara inp)

def regPairs (inp : NormSliceIn npix nifuy nwv) : List (ℕ × (Fin nifuy × Fin nwv)) :=
  (validList inp).enum.filter (fun rc => (inp.reg_std_map rc.2.1 rc.2.2).isfinite)

def A4fit (inp : NormSliceIn npix nifuy nwv) : List (List F) :=
  ((wdf inp).map (fun p => (validList inp).map (fun c => F.div (Mmat inp p c) (inp.noise p))))
    ++ (regPairs inp).map (fun rc =>
        (List.range (validList inp).length).map (fun r2 =>
          F.div (if r2 = rc.1 then F.fq 1 else F.fq 0) (inp.reg_std_map rc.2.1 rc.2.2)))

def b4fit (inp : NormSliceIn npix nifuy nwv) : List F :=
  ((wdf inp).map (fun p => F.div (inp.im p) (inp.noise p)))
    ++ (regPairs inp).map (fun rc =>
        F.div (inp.reg_mean_map rc.2.1 rc.2.2) (inp.reg_std_map rc.2.1 rc.2.2))

def pvec (solver : Solver) (inp : NormSliceIn npix nifuy nwv) : List F :=
  solver (A4fit inp) (b4fit inp)

def modelAt (solver : Solver) (inp : NormSliceIn npix nifuy nwv) (p : Fin npix) : F :=
  sumF ((validList inp).enum.map (fun rc =>
    F.mul (Mmat inp p rc.2) ((pvec solver inp).getD rc.1 F.nan)))

def normRes (solver : Solver) (inp : NormSliceIn npix nifuy nwv) (p : Fin npix) : F :=
  if usable inp p then
    F.div (F.sub (inp.im p) (modelAt solver inp p)) (inp.noise p)
  else F.nan

def meddev (solver : Solver) (inp : NormSliceIn npix nifuy nwv) : F :=
  median_abs_deviation ((wdf inp).map (normRes solver inp))

def flagged (solver : Solver) (inp : NormSliceIn npix nifuy nwv) (p : Fin npix) : Bool :=
  F.blt inp.threshold (F.div (F.babs (normRes solver inp p)) (meddev solver inp))
    || (normRes solver inp p).isnan

def coeffAt (solver : Solver) (inp : NormSliceIn npix nifuy nwv)
    (c : Fin nifuy × Fin nwv) : F :=
  if validpara inp c then (pvec solver inp).getD ((validList inp).indexOf c) F.nan
  else F.nan

end NormSlice

/-- _task_normslice_2dspline.  With zero usable pixels the function raises
UnboundLocalError at line 2372 (the line-2368 guard covers only the
assignment), modelled as Except.error; otherwise it returns the fit/score
outputs of lines 2378-2420. -/
def task_normslice_2dspline {npix nifuy nwv : ℕ} (solver : Solver)
    (inp : NormSliceIn npix nifuy nwv) :
    Except String (NormSliceOut npix nifuy nwv) :=
  if (NormSlice.wdf inp).isEmpty then
    Except.error "UnboundLocalError ravel_im_ifuy referenced before assignment"
  else
    Except.ok
      { new_im := fun p =>
          if NormSlice.usable inp p then NormSlice.modelAt solver inp p else F.nan
        new_noise := fun p => inp.noise p
        new_badpix := fun p =>
          if NormSlice.flagged solver inp p then F.nan else inp.badpix p
        res := fun p =>
          if NormSlice.usable inp p then
            F.sub (inp.im p) (NormSlice.modelAt solver inp p)
          else F.nan
        paras := fun i w => NormSlice.coeffAt solver inp (i, w) }

/-! ## Embedding of combine_spectrum (lines 2829-2906)

The sigma-clipping of line 2887 is astropy.stats.sigma_clip (external); it
enters as the function argument `clip`, which receives the finite clip
statistics in order and returns their mask.  numpy.sqrt of line 2896 is the
function argument `sqrt`. -/

namespace CombineSpec

/-- Lines 2841-2845: samples with NaN wavelength or NaN flux are removed;
NaN errors are kept. -/
def kept (samples : List (F × F × F)) : List (F × F × F) :=
  samples.filter (fun t => !(t.1.isnan || t.2.1.isnan))

/-- Lines 2848-2851: sort by wavelength. -/
def sortedSamples (samples : List (F × F × F)) : List (F × F × F) :=
  sortByF (fun t1 t2 => sortLe t1.1 t2.1) (kept samples)

/-- Walk the per-sample clip statistics, consuming one entry of the clip
routine's mask for each finite statistic (lines 2886-2887): non-finite
statistics are never masked. -/
def applyClipMask (clipRes : List Bool) : List ((F × F × F) × F) → List ((F × F × F) × Bool)
  | [] => []
  | (t, snr) :: rest =>
      if snr.isfinite then (t, clipRes.getD 0 false) :: applyClipMask (clipRes.drop 1) rest
      else (t, false) :: applyClipMask clipRes rest

/-- bin_start = wavelengths[0] + i * bin_size (line 2864). -/
def binStartAt (w0 bin_size : F) (i : ℕ) : F :=
  F.add w0 (F.mul (F.fq (Q.ofInt i)) bin_size)

/-- The bin-center wavelength bin_start + bin_size/2 (line 2873/2904). -/
def binCenterAt (w0 bin_size : F) (i : ℕ) : F :=
  F.add (binStartAt w0 bin_size i) (F.div bin_size (F.fq 2))

/-- bin_mask (line 2868): samples with bin_start <= wavelength < bin_end. -/
def binSamplesAt (sorted : List (F × F × F)) (w0 bin_size : F) (i : ℕ) : List (F × F × F) :=
  sorted.filter (fun t =>
    F.ble (binStartAt w0 bin_size i) t.1
      && F.blt t.1 (F.add (binStartAt w0 bin_size i) bin_size))

/-- One bin of the loop of lines 2862-2904: returns
(center wavelength, combined flux, combined error). -/
def binOut (clip : List F → List Bool) (sqrt : F → F)
    (sorted : List (F × F × F)) (w0 bin_size : F) (i : ℕ) : F × F × F :=
  let center := binCenterAt w0 bin_size i
  let binSamples := binSamplesAt sorted w0 bin_size i
  if binSamples.isEmpty then (center, F.nan, F.nan)
  else
    let med := nanmedian (binSamples.map (fun t => t.2.1))
    let withSnr := binSamples.map (fun t => (t, F.div (F.sub t.2.1 med) t.2.2))
    if (withSnr.filter (fun ts => ts.2.isfinite)).isEmpty then (center, F.nan, F.nan)
    else
      let clipRes := clip ((withSnr.filter (fun ts => ts.2.isfinite)).map (fun ts => ts.2))
      let masked := applyClipMask clipRes withSnr
      let valid := (masked.filter (fun tb => !tb.2)).map (fun tb => tb.1)
      let weights := valid.map (fun t => F.div (F.fq 1) (F.mul t.2.2 t.2.2))
      if 0 < weights.length then
        (center,
         F.div (sumF ((valid.zip weights).map (fun tw => F.mul tw.2 tw.1.2.1))) (sumF weights),
         F.div (F.fq 1) (sqrt (sumF weights)))
      else (center, F.nan, F.nan)

end CombineSpec

/-- combine_spectrum: returns (new_wavelengths, combined_fluxes,
combined_errors), or the Python exception raised by
int((wavelengths[-1] - wavelengths[0]) / bin_size) on line 2854 when that
quotient is an infinity or NaN, or by the empty-array indexing of line 2854
when every sample was removed. -/
def combine_spectrum (clip : List F → List Bool) (sqrt : F → F)
    (samples : List (F × F × F)) (bin_size : F) :
    Except String (List F × List F × List F) :=
  match hs : CombineSpec.sortedSamples samples with
  | [] => Except.error "IndexError"
  | t0 :: rest =>
    let w0 := t0.1
    let wlast := (t0 :: rest).getLast (by simp) |>.1
    match toIntF (F.div (F.sub wlast w0) bin_size) with
    | Except.error e => Except.error e
    | Except.ok z =>
      let num_bins := (z + 1).toNat
      let outs := (List.range num_bins).map
        (CombineSpec.binOut clip sqrt (t0 :: rest) w0 bin_size)
      Except.ok (outs.map (fun o => o.1), outs.map (fun o => o.2.1), outs.map (fun o => o.2.2))

/-! ## Embedding of _build_cube_task and build_cube (lines 3675-3807)

Per wavelength slice the arrays X, Y, Z, Zerr, Zbp are the per-pixel sky
offsets, flux, noise and bad-pixel mask.  The PSF interpolator produced by
_interp_psf (scipy) is external and enters as the field `interp`;
numpy.sqrt enters as the argument `sqrt`.  The comparison R < aper_radius
with R = np.sqrt((X-ra)^2 + (Y-dec)^2) (line 3685) is embedded exactly via
sqrtLtF below (no square root needs to be evaluated). -/

/-- sqrtLtF v a decides sqrt(v) < a under IEEE semantics (sqrt of a negative
is NaN, so the comparison is false; any NaN comparison is false). -/
def sqrtLtF : F → F → Bool
  | F.fq v, F.fq a => !(Q.isNeg v) && Q.isPos a && Q.blt v (Q.mul a a)
  | F.fq v, F.pinf => !(Q.isNeg v)
  | F.ninf, F.pinf => false
  | _, _ => false

structure CubeTaskIn (npts : ℕ) where
  X : Fin npts → F
  Y : Fin npts → F
  Z : Fin npts → F
  Zerr : Fin npts → F
  Zbp : Fin npts → F
  wv_id : ℕ
  ra_vec : List F
  dec_vec : List F
  aper_radius : F
  N_pix_min : F
  interp : F → F → F

namespace BuildCube

variable {npts : ℕ}

/-- Zerr_masking (line 3686): the noise normalized by the MAD of its finite
entries. -/
def zerrMasking (inp : CubeTaskIn npts) (p : Fin npts) : F :=
  F.div (inp.Zerr p)
    (median_abs_deviation (((List.finRange npts).map inp.Zerr).filter F.isfinite))

/-- where_finite of line 3688: finite mask, noise below the 5e1 MAD-outlier
cutoff, finite coordinates, inside the aperture radius. -/
def usable (inp : CubeTaskIn npts) (ra dec : F) (p : Fin npts) : Bool :=
  (inp.Zbp p).isfinite && F.blt (zerrMasking inp p) (F.fq 50)
    && (inp.X p).isfinite && (inp.Y p).isfinite
    && sqrtLtF (F.add (F.mul (F.sub (inp.X p) ra) (F.sub (inp.X p) ra))
                      (F.mul (F.sub (inp.Y p) dec) (F.sub (inp.Y p) dec)))
        inp.aper_radius

def usableList (inp : CubeTaskIn npts) (ra dec : F) : List (Fin npts) :=
  (List.finRange npts).filter (usable inp ra dec)

/-- M = psf_interp(X_fin - ra, Y_fin - dec) (line 3698). -/
def Mv (inp : CubeTaskIn npts) (ra dec : F) (p : Fin npts) : F :=
  inp.interp (F.sub (inp.X p) ra) (F.sub (inp.Y p) dec)

/-- deno (line 3700). -/
def deno (inp : CubeTaskIn npts) (ra dec : F) : F :=
  nansum ((usableList inp ra dec).map (fun p =>
    F.div (F.mul (Mv inp ra dec p) (Mv inp ra dec p)) (F.mul (inp.Zerr p) (inp.Zerr p))))

/-- mfflux (line 3701): the inverse-variance-weighted matched-filter
amplitude. -/
def mfflux (inp : CubeTaskIn npts) (ra dec : F) : F :=
  F.div (nansum ((usableList inp ra dec).map (fun p =>
      F.div (F.mul (Mv inp ra dec p) (inp.Z p)) (F.mul (inp.Zerr p) (inp.Zerr p)))))
    (deno inp ra dec)

/-- mffluxerr * noise_factor (lines 3702-3706): the residual-rescaled error. -/
def mffluxerrScaled (sqrt : F → F) (inp : CubeTaskIn npts) (ra dec : F) : F :=
  F.mul (F.div (F.fq 1) (sqrt (deno inp ra dec)))
    (nanstd sqrt ((usableList inp ra dec).map (fun p =>
      F.div (F.sub (inp.Z p) (F.mul (mfflux inp ra dec) (Mv inp ra dec p))) (inp.Zerr p))))

/-- One grid cell of _build_cube_task (lines 3685-3706). -/
def cell (sqrt : F → F) (inp : CubeTaskIn npts) (ra dec : F) : F × F :=
  if natLtF (usableList inp ra dec).length inp.N_pix_min then (F.nan, F.nan)
  else (mfflux inp ra dec, mffluxerrScaled sqrt inp ra dec)

end BuildCube

/-- _build_cube_task: the (ra, dec) double loop of lines 3682-3706, emitting
(ra_id, dec_id, flux, err) records. -/
def build_cube_task {npts : ℕ} (sqrt : F → F) (inp : CubeTaskIn npts) :
    List (ℕ × ℕ × F × F) :=
  inp.ra_vec.enum.flatMap (fun rr =>
    inp.dec_vec.enum.map (fun dd =>
      (rr.1, dd.1, BuildCube.cell sqrt inp rr.2 dd.2)))

/-- Cubes start filled with NaN (lines 3737-3738). -/
def initCube : ℕ × ℕ × ℕ → F × F := fun _ => (F.nan, F.nan)

/-- Write one task's records into the cube at [wv_id, dec_id, ra_id]
(lines 3786-3789). -/
def writeOuts (wv : ℕ) (acc : ℕ × ℕ × ℕ → F × F) (outs : List (ℕ × ℕ × F × F)) :
    ℕ × ℕ × ℕ → F × F :=
  outs.foldl (fun a o => fun key => if key = (wv, o.2.1, o.1) then o.2.2 else a key) acc

/-- Merge step 3 of build_cube (lines 3782-3789): fold the per-wavelength
outputs into the cube, keyed by the task's wavelength index. -/
def mergeCube (pairs : List (ℕ × List (ℕ × ℕ × F × F))) : ℕ × ℕ × ℕ → F × F :=
  pairs.foldl (fun acc pr => writeOuts pr.1 acc pr.2) initCube

/-- The keys written by a list of merge records. -/
def cubeKeys (pairs : List (ℕ × List (ℕ × ℕ × F × F))) : List (ℕ × ℕ × ℕ) :=
  pairs.flatMap (fun pr => pr.2.map (fun o => (pr.1, o.2.1, o.1)))

/-- build_cube with a worker pool (lines 3771-3773): mppool.map keeps results
in input order whatever the completion order, i.e. it is List.map. -/
def build_cube_par {npts : ℕ} (sqrt : F → F) (inputs : List (CubeTaskIn npts)) :
    ℕ × ℕ × ℕ → F × F :=
  mergeCube ((inputs.map (fun i => i.wv_id)).zip (inputs.map (build_cube_task sqrt)))

/-- build_cube without a pool (lines 3774-3778): the sequential loop
appending each task's output. -/
def build_cube_seq {npts : ℕ} (sqrt : F → F) (inputs : List (CubeTaskIn npts)) :
    ℕ × ℕ × ℕ → F × F :=
  mergeCube ((inputs.map (fun i => i.wv_id)).zip
    (inputs.foldl (fun acc i => acc ++ [build_cube_task sqrt i]) []))

/-! ## Embedding of _fit_wpsf_task (lines 2989-3248)

Points of the sky-projected slice carry their coordinates X, Y, data Z,
noise Zerr and mask Zbad, together with the polar coordinates R (line 2997,
np.sqrt) and PA (line 2998, np.arctan2 mod 2*pi) around the initial center;
both are numpy computations on the inputs and enter the embedding as data.
A sector carries its unpadded bounds and the padded bounds computed from
the padding geometry of lines 3040-3064 (trigonometric, external).  The
scattered PSF interpolator of lines 3109-3112 (scipy) is the field
`interp`; the interpolator rebuilt after a fitted rotation (line 3179) and
the Nelder-Mead minimizer of lines 3172-3182 are opaque per-sector
functions. -/

structure Sector where
  rmin : F
  rmax : F
  pamin : F
  pamax : F
  rminPad : F
  rmaxPad : F
  paminPad : F
  pamaxPad : F
deriving DecidableEq, Repr

structure WpsfIn (npts npsf : ℕ) where
  X : Fin npts → F
  Y : Fin npts → F
  Z : Fin npts → F
  Zerr : Fin npts → F
  Zbad : Fin npts → F
  R : Fin npts → F
  PA : Fin npts → F
  wepsf : Fin npsf → F
  wifuX : Fin npsf → F
  wifuY : Fin npsf → F
  sectors : List Sector
  fit_cen : Bool
  p0x : F
  p0y : F
  interp : F → F → F
  interpAfter : Sector → F → F → F
  minimizer : Sector → F × F × F

namespace Wpsf

variable {npts npsf : ℕ}

/-- fit_sector (lines 3068-3071): the padded region, restricted to finite
Zbad. -/
def fitSel (inp : WpsfIn npts npsf) (s : Sector) (p : Fin npts) : Bool :=
  (if F.blt s.paminPad s.pamaxPad then
    F.ble s.rminPad (inp.R p) && F.blt (inp.R p) s.rmaxPad
      && F.ble s.paminPad (inp.PA p) && F.blt (inp.PA p) s.pamaxPad
  else
    F.ble s.rminPad (inp.R p) && F.blt (inp.R p) s.rmaxPad
      && (F.ble s.paminPad (inp.PA p) || F.blt (inp.PA p) s.pamaxPad))
  && (inp.Zbad p).isfinite

/-- sc_sector (lines 3072-3075): the unpadded region; the finite-Zbad screen
is commented out in the source. -/
def scSel (inp : WpsfIn npts npsf) (s : Sector) (p : Fin npts) : Bool :=
  if F.blt s.pamin s.pamax then
    F.ble s.rmin (inp.R p) && F.blt (inp.R p) s.rmax
      && F.ble s.pamin (inp.PA p) && F.blt (inp.PA p) s.pamax
  else
    F.ble s.rmin (inp.R p) && F.blt (inp.R p) s.rmax
      && (F.ble s.pamin (inp.PA p) || F.blt (inp.PA p) s.pamax)

def whereFit (inp : WpsfIn npts npsf) (s : Sector) : List (Fin npts) :=
  (List.finRange npts).filter (fitSel inp s)

def whereSc (inp : WpsfIn npts npsf) (s : Sector) : List (Fin npts) :=
  (List.finRange npts).filter (scSel inp s)

/-- where_wepsf_finite (line 3088). -/
def whereW (inp : WpsfIn npts npsf) : List (Fin npsf) :=
  (List.finRange npsf).filter (fun q =>
    (inp.wepsf q).isfinite && (inp.wifuX q).isfinite && (inp.wifuY q).isfinite)

/-- The three continue guards of lines 3078, 3083, 3090. -/
def skip (inp : WpsfIn npts npsf) (s : Sector) : Bool :=
  (whereFit inp s).isEmpty || (whereSc inp s).isEmpty || (whereW inp).length < 3

/-- The interpolator actually used after the optional centroid fit: the
original one when fit_cen is false, the possibly re-rotated one otherwise. -/
def interpUsed (inp : WpsfIn npts npsf) (s : Sector) : F → F → F :=
  if inp.fit_cen then inp.interpAfter s else inp.interp

/-- Closed-form amplitude a = nansum(Z*m0/err^2)/nansum(m0^2/err^2)
(lines 3165, 3186) over the fit selection, for a given model evaluation. -/
def ampl (inp : WpsfIn npts npsf) (s : Sector) (m0 : Fin npts → F) : F :=
  F.div
    (nansum ((whereFit inp s).map (fun p =>
      F.div (F.mul (inp.Z p) (m0 p)) (F.mul (inp.Zerr p) (inp.Zerr p)))))
    (nansum ((whereFit inp s).map (fun p =>
      F.div (F.mul (m0 p) (m0 p)) (F.mul (inp.Zerr p) (inp.Zerr p)))))

/-- The fitted center/rotation: the simplex minimizer when fit_cen, else
(p0, 0) (lines 3172-3184). -/
def centerOf (inp : WpsfIn npts npsf) (s : Sector) : F × F × F :=
  if inp.fit_cen then inp.minimizer s else (inp.p0x, inp.p0y, F.fq 0)

/-- Per-sector parameters [a0, a, xc, yc, th] of line 3246. -/
def sectorParas (inp : WpsfIn npts npsf) (s : Sector) : F × F × F × F × F :=
  let a0 := ampl inp s (fun p =>
    inp.interp (F.sub (inp.X p) inp.p0x) (F.sub (inp.Y p) inp.p0y))
  let c := centerOf inp s
  let a := ampl inp s (fun p =>
    interpUsed inp s (F.sub (inp.X p) c.1) (F.sub (inp.Y p) c.2.1))
  (a0, a, c.1, c.2.1, c.2.2)

/-- out_model[where_sc] = a * webbpsf_interp(Xsc - xc, Ysc - yc)
(line 3247). -/
def sectorModel (inp : WpsfIn npts npsf) (s : Sector) (p : Fin npts) : F :=
  let c := centerOf inp s
  F.mul (sectorParas inp s).2.1
    (interpUsed inp s (F.sub (inp.X p) c.1) (F.sub (inp.Y p) c.2.1))

def allNanParas : F × F × F × F × F := (F.nan, F.nan, F.nan, F.nan, F.nan)

/-- The sector loop (lines 3033-3247), processed in order over the
enumerated sector list. -/
def go (inp : WpsfIn npts npsf) :
    List (ℕ × Sector) → ((ℕ → F × F × F × F × F) × (Fin npts → F)) →
    (ℕ → F × F × F × F × F) × (Fin npts → F)
  | [], st => st
  | (sid, s) :: rest, st =>
      if skip inp s then go inp rest st
      else
        go inp rest
          (fun k => if k = sid then sectorParas inp s else st.1 k,
           fun p => if scSel inp s p then sectorModel inp s p else st.2 p)

end Wpsf

/-- _fit_wpsf_task: out_paras (one row of 5 per sector, initialized NaN,
line 3028) and out_model (initialized NaN, line 3029). -/
def fit_wpsf_task {npts npsf : ℕ} (inp : WpsfIn npts npsf) :
    (ℕ → F × F × F × F × F) × (Fin npts → F) :=
  Wpsf.go inp inp.sectors.enum ((fun _ => Wpsf.allNanParas), (fun _ => F.nan))

/-- Concrete row for the C3 scenario: 15 clean pixels at 100 plus or minus 1
and 5 pixels with a 50-sigma spike (noise 1, values 150), over a constant
unit basis. -/
def c3inp : NormRowsIn 1 20 1 where
  im := fun _ j =>
    if 15 ≤ j.val then F.fq 150 else if j.val % 2 = 0 then F.fq 99 else F.fq 101
  noise := fun _ _ => F.fq 1
  badpix := fun _ _ => F.fq 1
  Mspline := fun _ _ _ => F.fq 1
  star_model := fun _ _ => F.fq 1
  threshold := F.fq 10
  regularization := false
  reg_mean_map := fun _ _ => F.nan
  reg_std_map := fun _ _ => F.nan

/-- For the C3 scenario: the solver recovers the constant continuum 100. -/
def c3solver : Solver := fun _ _ => [F.fq 100]

/-- A trace slice in which every pixel is masked (bad-pixel map all NaN):
zero usable pixels for the 2-D spline normalizer. -/
def c4inp : NormSliceIn 4 4 4 where
  im := fun _ => F.fq 1
  im_wvs := fun _ => F.fq 1
  im_ifuy := fun _ => F.fq 1
  noise := fun _ => F.fq 1
  badpix := fun _ => F.nan
  star_model := fun _ => F.fq 1
  Mspl_ifuy := fun _ _ => F.fq 1
  Mspl_wvs := fun _ _ => F.fq 1
  threshold := F.fq 10
  reg_mean_map := fun _ _ => F.fq 1
  reg_std_map := fun _ _ => F.fq 1

/-- Input refuting C2 as stated: one sample with finite wavelength and flux,
plus one sample whose wavelength is +infinity (not NaN, so it survives the
NaN filter of line 2841 and reaches the int() of line 2854). -/
def c2samples : List (F × F × F) := [(F.fq 1, F.fq 1, F.fq 1), (F.pinf, F.fq 1, F.fq 1)]

/-- Well-behaved input for the C2 witness. -/
def c2okSamples : List (F × F × F) := [(F.fq 0, F.fq 1, F.fq 1), (F.fq 5, F.fq 2, F.fq 1)]

/-- C10 scenario input: three samples in one bin, the middle one with finite
wavelength and flux but NaN error. -/
def c10samples : List (F × F × F) :=
  [(F.fq 0, F.fq 1, F.fq 1), (F.fq 0, F.fq 1, F.nan), (F.fq 0, F.fq 1, F.fq 1)]

/-- The list of finite clip statistics that combine_spectrum hands to
sigma_clip for bin 0 of the C10 scenario (same expression as in binOut). -/
def c10snrStats : List F :=
  List.map (fun ts => ts.2)
    (List.filter (fun ts => ts.2.isfinite)
      ((CombineSpec.binSamplesAt (CombineSpec.sortedSamples c10samples) (F.fq 0) (F.fq 1) 0).map
        (fun t => (t, F.div (F.sub t.2.1
          (nanmedian ((CombineSpec.binSamplesAt (CombineSpec.sortedSamples c10samples)
            (F.fq 0) (F.fq 1) 0).map (fun t2 => t2.2.1)))) t.2.2))))

/-- A clip routine with a fixed returned mask (covers every possible answer
of the external sigma_clip on the fixed statistics list). -/
def c10clip (cr : List Bool) : List F → List Bool := fun _ => cr

/-- C5 counterexample cell: two usable pixels inside the aperture (meeting
N_pix_min = 2) whose interpolated PSF model is identically zero, as happens
when the candidate position lies outside the PSF support (fill value 0). -/
def c5inp : CubeTaskIn 2 where
  X := fun p => if p.val = 0 then F.fq 0 else F.fq ⟨1, 9⟩
  Y := fun _ => F.fq 0
  Z := fun _ => F.fq 1
  Zerr := fun p => if p.val = 0 then F.fq 1 else F.fq 2
  Zbp := fun _ => F.fq 1
  wv_id := 0
  ra_vec := [F.fq 0]
  dec_vec := [F.fq 0]
  aper_radius := F.fq 1
  N_pix_min := F.fq 2
  interp := fun _ _ => F.fq 0

/-- The merge of build_cube, flattened to one write per output record. -/
def cubeWrites (pairs : List (ℕ × List (ℕ × ℕ × F × F))) :
    List ((ℕ × ℕ × ℕ) × (F × F)) :=
  pairs.flatMap (fun pr => pr.2.map (fun o => ((pr.1, o.2.1, o.1), o.2.2)))

/-- Apply a list of keyed writes to a cube, later writes overriding. -/
def applyWrites (init : ℕ × ℕ × ℕ → F × F)
    (ws : List ((ℕ × ℕ × ℕ) × (F × F))) : ℕ × ℕ × ℕ → F × F :=
  ws.foldl (fun a w => fun key => if key = w.1 then w.2 else a key) init

/-- Single sector for the C7 counterexample: unpadded radial band [2, 3),
padded band [1, 4), full angular range. -/
def c7sector : Sector where
  rmin := F.fq 2
  rmax := F.fq 3
  pamin := F.fq 0
  pamax := F.fq 10
  rminPad := F.fq 1
  rmaxPad := F.fq 4
  paminPad := F.fq 0
  pamaxPad := F.fq 10

/-- C7 counterexample: point 0 is usable but sits only in the padded ring
(R = 1.5); point 1 sits in the unpadded ring (R = 2.5) but its Zbad is NaN,
so the sector has no usable science data point in its unpadded region, yet
it is not skipped. -/
def c7inp : WpsfIn 2 3 where
  X := fun _ => F.fq 0
  Y := fun _ => F.fq 0
  Z := fun _ => F.fq 1
  Zerr := fun _ => F.fq 1
  Zbad := fun p => if p.val = 0 then F.fq 1 else F.nan
  R := fun p => if p.val = 0 then F.fq ⟨3, 1⟩ else F.fq ⟨5, 1⟩
  PA := fun _ => F.fq 1
  wepsf := fun _ => F.fq 1
  wifuX := fun _ => F.fq 1
  wifuY := fun _ => F.fq 1
  sectors := [c7sector]
  fit_cen := false
  p0x := F.fq 0
  p0y := F.fq 0
  interp := fun _ _ => F.fq 1
  interpAfter := fun _ _ _ => F.fq 1
  minimizer := fun _ => (F.nan, F.nan, F.nan)

/-- C7 witness input: like c7inp but with only 2 finite PSF support points,
so the single sector is skipped. -/
def c7skipInp : WpsfIn 2 3 where
  X := fun _ => F.fq 0
  Y := fun _ => F.fq 0
  Z := fun _ => F.fq 1
  Zerr := fun _ => F.fq 1
  Zbad := fun p => if p.val = 0 then F.fq 1 else F.nan
  R := fun p => if p.val = 0 then F.fq ⟨3, 1⟩ else F.fq ⟨5, 1⟩
  PA := fun _ => F.fq 1
  wepsf := fun q => if q.val = 0 then F.nan else F.fq 1
  wifuX := fun _ => F.fq 1
  wifuY := fun _ => F.fq 1
  sectors := [c7sector]
  fit_cen := false
  p0x := F.fq 0
  p0y := F.fq 0
  interp := fun _ _ => F.fq 1
  interpAfter := fun _ _ _ => F.fq 1
  minimizer := fun _ => (F.nan, F.nan, F.nan)

/-! ## Theorems: semantic layer for Q and F -/

namespace Q

theorem den_pos (q : Q) : 0 < q.den := by
  simp only [den]; positivity

theorem den_val (q : Q) : ((q.dm : ℚ) + 1) ≠ 0 := by positivity

theorem den_cast (q : Q) : ((q.den : ℚ)) = (q.dm : ℚ) + 1 := by
  simp [den]

theorem val_ofInt (z : ℤ) : (ofInt z).val = (z : ℚ) := by
  simp [ofInt, val]

theorem val_add (a b : Q) : (add a b).val = a.val + b.val := by
  simp only [add, val]
  rw [div_add_div _ _ (den_val a) (den_val b)]
  congr 1
  · push_cast [den]; ring
  · push_cast; ring

theorem val_neg (a : Q) : (neg a).val = -a.val := by
  simp [neg, val, neg_div]

theorem val_sub (a b : Q) : (sub a b).val = a.val - b.val := by
  rw [sub, val_add, val_neg]; ring

theorem val_mul (a b : Q) : (mul a b).val = a.val * b.val := by
  simp only [mul, val]
  rw [div_mul_div_comm]
  congr 1
  · push_cast; ring
  · push_cast; ring

theorem val_babs (a : Q) : (babs a).val = |a.val| := by
  simp only [babs, val]
  rw [abs_div, abs_of_pos (show (0:ℚ) < (a.dm:ℚ)+1 by positivity)]
  norm_cast

theorem val_ofDen (n d : ℤ) (hd : 0 < d) : (ofDen n d).val = (n : ℚ) / (d : ℚ) := by
  simp only [ofDen, val]
  congr 1
  have h3 : (1 : ℕ) ≤ d.toNat := by omega
  rw [Nat.cast_sub h3]
  have h4 : ((d.toNat : ℕ) : ℚ) = (d : ℚ) := by exact_mod_cast Int.toNat_of_nonneg hd.le
  rw [h4]; norm_num

theorem val_div (a b : Q) (hb : b.n ≠ 0) : (div a b).val = a.val / b.val := by
  have hda := den_pos a
  have h1 : ((a.dm:ℚ)+1) ≠ 0 := den_val a
  have h2 : ((b.dm:ℚ)+1) ≠ 0 := den_val b
  rcases lt_or_gt_of_ne hb with h | h
  · rw [div, if_neg (by omega)]
    rw [val_ofDen _ _ (mul_pos hda (by omega))]
    simp only [val]
    have hbn : ((b.n : ℚ)) ≠ 0 := by exact_mod_cast hb
    push_cast [den]
    field_simp
  · rw [div, if_pos (by omega)]
    rw [val_ofDen _ _ (mul_pos hda (by omega))]
    simp only [val]
    have hbn : ((b.n : ℚ)) ≠ 0 := by exact_mod_cast hb
    push_cast [den]
    field_simp

theorem blt_iff (a b : Q) : blt a b = true ↔ a.val < b.val := by
  simp only [blt, val, decide_eq_true_eq]
  rw [div_lt_div_iff (by positivity) (by positivity)]
  constructor
  · intro h
    have h2 : ((a.n * b.den : ℤ) : ℚ) < ((b.n * a.den : ℤ) : ℚ) := by exact_mod_cast h
    push_cast [den] at h2
    linarith
  · intro h
    have h2 : ((a.n * b.den : ℤ) : ℚ) < ((b.n * a.den : ℤ) : ℚ) := by
      push_cast [den]
      linarith
    exact_mod_cast h2

theorem ble_iff (a b : Q) : ble a b = true ↔ a.val ≤ b.val := by
  simp only [ble, val, decide_eq_true_eq]
  rw [div_le_div_iff (by positivity) (by positivity)]
  constructor
  · intro h
    have h2 : ((a.n * b.den : ℤ) : ℚ) ≤ ((b.n * a.den : ℤ) : ℚ) := by exact_mod_cast h
    push_cast [den] at h2
    linarith
  · intro h
    have h2 : ((a.n * b.den : ℤ) : ℚ) ≤ ((b.n * a.den : ℤ) : ℚ) := by
      push_cast [den]
      linarith
    exact_mod_cast h2

theorem beq_iff (a b : Q) : beq a b = true ↔ a.val = b.val := by
  simp only [beq, val, decide_eq_true_eq]
  rw [div_eq_div_iff (by positivity) (by positivity)]
  constructor
  · intro h
    have h2 : ((a.n * b.den : ℤ) : ℚ) = ((b.n * a.den : ℤ) : ℚ) := by exact_mod_cast h
    push_cast [den] at h2
    linarith
  · intro h
    have h2 : ((a.n * b.den : ℤ) : ℚ) = ((b.n * a.den : ℤ) : ℚ) := by
      push_cast [den]
      linarith
    exact_mod_cast h2

theorem isNeg_eq_blt (a : Q) : isNeg a = blt a (ofInt 0) := by
  simp [isNeg, blt, ofInt, den]

theorem isPos_eq_blt (a : Q) : isPos a = blt (ofInt 0) a := by
  simp [isPos, blt, ofInt, den]

theorem isZero_eq_beq (a : Q) : isZero a = beq a (ofInt 0) := by
  simp [isZero, beq, ofInt, den]

theorem isNeg_iff (a : Q) : isNeg a = true ↔ a.val < 0 := by
  rw [isNeg_eq_blt, blt_iff, val_ofInt]; norm_num

theorem isPos_iff (a : Q) : isPos a = true ↔ 0 < a.val := by
  rw [isPos_eq_blt, blt_iff, val_ofInt]; norm_num

theorem isZero_iff (a : Q) : isZero a = true ↔ a.val = 0 := by
  rw [isZero_eq_beq, beq_iff, val_ofInt]; norm_num


end Q

theorem sqrtTriv_ok : SqrtOK sqrtTriv := by
  refine ⟨rfl, rfl, rfl, ?_⟩
  intro q h
  simp [sqrtTriv, h]


theorem F.blt_nan_right (t : F) : F.blt t F.nan = false := by cases t <;> rfl

theorem F.blt_trans {a b c : F} (h1 : F.blt a b = true) (h2 : F.blt b c = true) :
    F.blt a c = true := by
  cases a <;> cases b <;> cases c <;> simp_all [F.blt]
  rw [Q.blt_iff] at *
  linarith

theorem F.blt_asymm {a b : F} (h : F.blt a b = true) : F.blt b a = false := by
  cases a <;> cases b <;> simp_all [F.blt]
  rw [Bool.eq_false_iff]
  intro hc
  rw [Q.blt_iff] at h hc
  linarith

theorem F.blt_total_helper {x y t : F} (hx : x.isnan = false) (hy : y.isnan = false)
    (hxy : F.blt x y = false) (ht : F.blt t y = true) : F.blt t x = true := by
  cases x <;> cases y <;> cases t <;> simp_all [F.blt, F.isnan]
  rename_i qx qy qt
  rw [Q.blt_iff] at ht ⊢
  have hxy2 : ¬ (qx.val < qy.val) := by
    rw [← Q.blt_iff]
    simp [hxy]
  exact lt_of_lt_of_le ht (not_lt.mp hxy2)

theorem foldl_maxF_blt (t : F) : ∀ (xs : List F) (x : F), (∀ y ∈ x :: xs, y.isnan = false) →
    F.blt t (xs.foldl maxF x) = (F.blt t x || xs.any (fun y => F.blt t y)) := by
  intro xs
  induction xs with
  | nil => intro x _; simp
  | cons y ys ih =>
    intro x hnn
    have hx : x.isnan = false := hnn x (by simp)
    have hy : y.isnan = false := hnn y (by simp)
    have hmax : (maxF x y).isnan = false := by unfold maxF; split <;> assumption
    rw [List.foldl_cons, ih (maxF x y) ?hrest]
    case hrest =>
      intro z hz
      rcases List.mem_cons.mp hz with h | h
      · exact h ▸ hmax
      · exact hnn z (by simp [h])
    have hstep : F.blt t (maxF x y) = (F.blt t x || F.blt t y) := by
      unfold maxF
      by_cases hxy : F.blt x y = true
      · rw [if_pos hxy]
        cases htx : F.blt t x
        · simp
        · simp [F.blt_trans htx hxy]
      · rw [if_neg hxy]
        cases hty : F.blt t y
        · simp
        · simp [F.blt_total_helper hx hy (Bool.not_eq_true _ ▸ hxy) hty]
    rw [hstep]
    simp [List.any_cons, Bool.or_assoc]

theorem blt_nanmax (t : F) (l : List F) :
    F.blt t (nanmax l) = l.any (fun x => F.blt t x) := by
  have hfilter : l.any (fun x => F.blt t x)
      = (l.filter (fun x => !x.isnan)).any (fun x => F.blt t x) := by
    induction l with
    | nil => rfl
    | cons x xs ih =>
      by_cases hx : x.isnan = true
      · have hb : F.blt t x = false := by
          cases x <;> simp_all [F.isnan]
          exact F.blt_nan_right t
        simp [List.filter_cons, hx, hb, ih]
      · simp only [Bool.not_eq_true] at hx
        simp [List.filter_cons, hx, ih]
  rw [hfilter]
  unfold nanmax
  cases hf : l.filter (fun x => !x.isnan) with
  | nil => simp [F.blt_nan_right]
  | cons x xs =>
    have hnn : ∀ y ∈ x :: xs, y.isnan = false := by
      intro y hy
      have hmem : y ∈ l.filter (fun x => !x.isnan) := by rw [hf]; exact hy
      have := List.of_mem_filter hmem
      simpa using this
    rw [foldl_maxF_blt t xs x hnn]
    simp

theorem Q.beq_refl (a : Q) : Q.beq a a = true := by simp [Q.beq]

theorem F.isnan_iff (x : F) : x.isnan = true ↔ x = F.nan := by
  cases x <;> simp [F.isnan]

theorem clipF_pinf (x lo : F) : clipF x lo F.pinf = if F.blt x lo then lo else x := by
  unfold clipF
  have hpinf : ∀ y : F, F.blt F.pinf y = false := fun y => by cases y <;> rfl
  simp [hpinf]

/-! ## Claim theorems -/

/-- C9: the refined bad-pixel mask returned by the row normalizer is NaN at
every pixel where the input mask was already NaN — the set of good pixels
never grows across a normalization pass. -/
theorem claim_C9 {nrows ncols nnodes : ℕ} (solver : Solver)
    (inp : NormRowsIn nrows ncols nnodes) (k : Fin nrows) (j : Fin ncols)
    (h : (inp.badpix k j).isnan = true) :
    ((task_normrows solver inp).new_badpix k j).isnan = true := by
  unfold task_normrows
  dsimp only
  cases hp : NormRows.rowProcessed inp k
  · simp [hp, h]
  · cases hflag : NormRows.flaggedRow solver inp k j <;>
      simp [hp, hflag, (F.isnan_iff _).mp h, F.isnan]

/-- Witness for C9 at a concrete one-pixel image whose mask is NaN. -/
theorem claim_C9_witness :
    ((task_normrows (fun _ _ => [])
      { im := fun _ _ => F.fq 1
        noise := fun _ _ => F.fq 1
        badpix := fun _ _ => F.nan
        Mspline := fun _ _ _ => F.fq 1
        star_model := fun _ _ => F.fq 1
        threshold := F.fq 10
        regularization := false
        reg_mean_map := fun _ _ => F.nan
        reg_std_map := fun _ _ => F.nan
        : NormRowsIn 1 1 1 }).new_badpix 0 0).isnan = true :=
  claim_C9 _ _ 0 0 (by decide)

/-- C8: in the star-subtraction pass the regularization std map is the
absolute value of the prior mean coefficients (NaN entries filled by a
per-row fallback) with no lower floor except the late clip at 1e-11, and in
the iterative continuum-normalization pass it is the plain absolute value
with no floor at all; hence a prior mean near zero yields a near-zero
(at most 1e-11) regularization standard deviation. -/
theorem claim_C8 {nrows nnodes : ℕ} (paras mean0 : Fin nrows → Fin nnodes → F)
    (k : Fin nrows) (i : Fin nnodes) :
    ((paras k i).isnan = false →
      starsub_reg_std_map paras k i = clipF (F.babs (paras k i)) epsClip F.pinf) ∧
    (∀ q : Q, paras k i = F.fq q → Q.ble (Q.babs q) ⟨1, 99999999999⟩ = true →
      F.beq (starsub_reg_std_map paras k i) epsClip = true) ∧
    ((paras k i).isnan = true →
      starsub_reg_mean_map paras k i = nanmedian ((List.finRange nnodes).map (paras k))) ∧
    (contnorm_reg_std_map1 paras mean0 k i
      = F.babs (contnorm_reg_mean_map1 paras mean0 k i)) ∧
    (∀ q : Q, contnorm_reg_mean_map1 paras mean0 k i = F.fq q →
      contnorm_reg_std_map1 paras mean0 k i = F.fq (Q.babs q)) := by
  refine ⟨?_, ?_, ?_, rfl, ?_⟩
  · intro h
    unfold starsub_reg_std_map
    rw [if_neg (by simp [h])]
  · intro q hq hle
    unfold starsub_reg_std_map
    rw [if_neg (by simp [hq, F.isnan]), hq]
    rw [clipF_pinf]
    cases hblt : F.blt (F.babs (F.fq q)) epsClip
    · rw [if_neg (by simp [hblt])]
      show Q.beq (Q.babs q) ⟨1, 99999999999⟩ = true
      rw [Q.beq_iff]
      have h1 : ¬ ((Q.babs q).val < (⟨1, 99999999999⟩ : Q).val) := by
        rw [← Q.blt_iff]
        simp only [F.babs, F.blt, epsClip] at hblt
        simp [hblt]
      have h2 : (Q.babs q).val ≤ (⟨1, 99999999999⟩ : Q).val := (Q.ble_iff _ _).mp hle
      exact le_antisymm h2 (not_lt.mp h1)
    · rw [if_pos (by simp [hblt])]
      exact Q.beq_refl _
  · intro h
    unfold starsub_reg_mean_map
    rw [if_pos (by simp [h])]
  · intro q hq
    unfold contnorm_reg_std_map1
    rw [hq]
    rfl

/-- Witness for C8 at a concrete coefficient map with a tiny prior mean. -/
theorem claim_C8_witness :
    F.beq
      (starsub_reg_std_map
        (fun (_ : Fin 1) (_ : Fin 1) => F.fq ⟨1, 199999999999999⟩) 0 0)
      epsClip = true :=
  ((claim_C8 (fun _ _ => F.fq ⟨1, 199999999999999⟩) (fun _ _ => F.nan) 0 0).2.1
    ⟨1, 199999999999999⟩ rfl (by decide))

/-- C1: for every row fitted by the normalizer, every design-matrix column
whose maximum value (over the selected pixels) falls below the pruning
threshold is dropped before solving and its returned coefficient is NaN —
never zero — while every column strictly above the threshold receives its
coefficient from the weighted least-squares solve. -/
theorem claim_C1 {nrows ncols nnodes : ℕ} (solver : Solver)
    (inp : NormRowsIn nrows ncols nnodes) (k : Fin nrows)
    (hk : NormRows.rowProcessed inp k = true) (i : Fin nnodes) :
    (F.blt (colMax inp k i) (NormRows.pruneThresh inp k) = true →
      (task_normrows solver inp).paras k i = F.nan ∧
      (task_normrows solver inp).paras k i ≠ F.fq 0) ∧
    (F.blt (NormRows.pruneThresh inp k) (colMax inp k i) = true →
      (task_normrows solver inp).paras k i =
        (solver (NormRows.A4fit inp k) (NormRows.b4fit inp k)).getD
          ((NormRows.validList inp k).indexOf i) F.nan) := by
  have hparas : (task_normrows solver inp).paras k i = NormRows.coeffAt solver inp k i := by
    unfold task_normrows
    simp [hk]
  have hmax : F.blt (NormRows.pruneThresh inp k) (colMax inp k i)
      = NormRows.validpara inp k i := by
    unfold colMax NormRows.validpara
    rw [blt_nanmax]
    induction NormRows.wdf inp k with
    | nil => rfl
    | cons a l ih => simp only [List.map_cons, List.any_cons, ih]
  constructor
  · intro hlt
    have hvalid : NormRows.validpara inp k i = false := by
      rw [← hmax]
      exact F.blt_asymm hlt
    rw [hparas]
    unfold NormRows.coeffAt
    rw [if_neg (by simp [hvalid])]
    exact ⟨rfl, by simp⟩
  · intro hgt
    have hvalid : NormRows.validpara inp k i = true := by rw [← hmax]; exact hgt
    rw [hparas]
    unfold NormRows.coeffAt NormRows.pvec
    rw [if_pos (by simp [hvalid])]

/-- Witness for C1: a processed row with one strong column and one empty
column; the empty column is below threshold (coefficient NaN), the strong
one above it (coefficient from the solver). -/
theorem claim_C1_witness :
    (NormRows.rowProcessed
      ({ im := fun _ _ => F.fq 1
         noise := fun _ _ => F.fq 1
         badpix := fun _ _ => F.fq 1
         Mspline := fun _ _ i => if i.val = 0 then F.fq 1 else F.fq 0
         star_model := fun _ _ => F.fq 1
         threshold := F.fq 10
         regularization := false
         reg_mean_map := fun _ _ => F.nan
         reg_std_map := fun _ _ => F.nan
         : NormRowsIn 1 2 2 }) 0 = true) ∧
    ((task_normrows (fun _ _ => [F.fq 1, F.fq 1])
      ({ im := fun _ _ => F.fq 1
         noise := fun _ _ => F.fq 1
         badpix := fun _ _ => F.fq 1
         Mspline := fun _ _ i => if i.val = 0 then F.fq 1 else F.fq 0
         star_model := fun _ _ => F.fq 1
         threshold := F.fq 10
         regularization := false
         reg_mean_map := fun _ _ => F.nan
         reg_std_map := fun _ _ => F.nan
         : NormRowsIn 1 2 2 })).paras 0 1 = F.nan) := by
  refine ⟨by decide, ?_⟩
  exact ((claim_C1 (fun _ _ => [F.fq 1, F.fq 1]) _ 0 (by decide) 1).1 (by decide)).1

theorem F.finOrNan_add {a b : F} (ha : a.isfinite = true ∨ a = F.nan)
    (hb : b.isfinite = true ∨ b = F.nan) :
    (F.add a b).isfinite = true ∨ F.add a b = F.nan := by
  cases a <;> cases b <;> simp_all [F.add, F.isfinite]

theorem F.finOrNan_mul {a b : F} (ha : a.isfinite = true ∨ a = F.nan)
    (hb : b.isfinite = true ∨ b = F.nan) :
    (F.mul a b).isfinite = true ∨ F.mul a b = F.nan := by
  cases a <;> cases b <;> simp_all [F.mul, F.isfinite]

theorem sumF_finOrNan (l : List F) (h : ∀ x ∈ l, x.isfinite = true ∨ x = F.nan) :
    (sumF l).isfinite = true ∨ sumF l = F.nan := by
  suffices haux : ∀ (l : List F) (acc : F), (∀ x ∈ l, x.isfinite = true ∨ x = F.nan) →
      (acc.isfinite = true ∨ acc = F.nan) →
      ((l.foldl F.add acc).isfinite = true ∨ l.foldl F.add acc = F.nan) by
    exact haux l (F.fq 0) h (Or.inl rfl)
  intro l
  induction l with
  | nil => intro acc _ hacc; exact hacc
  | cons x xs ih =>
    intro acc hl hacc
    exact ih (F.add acc x) (fun y hy => hl y (by simp [hy]))
      (F.finOrNan_add hacc (hl x (by simp)))

theorem F.isnan_eq_not_isfinite {x : F} (h : x.isfinite = true ∨ x = F.nan) :
    x.isnan = !x.isfinite := by
  rcases h with h | h
  · cases x <;> simp_all [F.isfinite, F.isnan]
  · rw [h]; rfl

theorem List.getD_mem_or {α : Type} (l : List α) (n : ℕ) (d : α) :
    l.getD n d ∈ l ∨ l.getD n d = d := by
  induction l generalizing n with
  | nil => right; rfl
  | cons x xs ih =>
    cases n with
    | zero => left; simp [List.getD]
    | succ m =>
      rcases ih m with h | h
      · left; simpa [List.getD] using Or.inr (by simpa [List.getD] using h)
      · right; simpa [List.getD] using h

theorem F.finOrNan_neg {a : F} (ha : a.isfinite = true ∨ a = F.nan) :
    (F.neg a).isfinite = true ∨ F.neg a = F.nan := by
  cases a <;> simp_all [F.neg, F.isfinite]

theorem F.div_finOrNan {a b : F} (ha : a.isfinite = true ∨ a = F.nan)
    (hbf : b.isfinite = true) (hbz : F.bne b (F.fq 0) = true) :
    (F.div a b).isfinite = true ∨ F.div a b = F.nan := by
  cases b <;> simp_all [F.isfinite]
  rename_i bq
  have hz : Q.isZero bq = false := by
    rw [Q.isZero_eq_beq]
    simpa [F.bne, F.beq] using hbz
  rcases ha with h | h
  · cases a <;> simp_all [F.isfinite]
    left
    simp [F.div, hz, F.isfinite]
  · rw [h]; right; rfl

/-- C3: in the SCORE step a pixel is newly flagged bad exactly when its
normalized residual over the row MAD exceeds the threshold in absolute
value or the normalized residual is non-finite; and the concrete 5-pixel
50-sigma-spike scenario flags exactly those 5 pixels at threshold 10. -/
theorem claim_C3 {nrows ncols nnodes : ℕ} (solver : Solver)
    (inp : NormRowsIn nrows ncols nnodes) (k : Fin nrows)
    (hk : NormRows.rowProcessed inp k = true)
    (hM : ∀ (j : Fin ncols) (i : Fin nnodes), (inp.Mspline k j i).isfinite = true)
    (hsol : ∀ x ∈ NormRows.pvec solver inp k, x.isfinite = true) :
    (∀ j : Fin ncols,
      ((((task_normrows solver inp).new_badpix k j).isnan = true
          ∧ (inp.badpix k j).isnan = false)
        ↔ ((inp.badpix k j).isnan = false ∧
            (F.blt inp.threshold
              (F.div (F.babs (NormRows.normResRow solver inp k j))
                (NormRows.meddevRow solver inp k)) = true
             ∨ (NormRows.normResRow solver inp k j).isfinite = false)))) ∧
    (∀ j : Fin 20,
      ((((task_normrows c3solver c3inp).new_badpix 0 j).isnan = true
          ∧ (c3inp.badpix 0 j).isnan = false)
        ↔ 15 ≤ j.val)) := by
  constructor
  · intro j
    have hnr : (NormRows.normResRow solver inp k j).isfinite = true
        ∨ NormRows.normResRow solver inp k j = F.nan := by
      unfold NormRows.normResRow
      by_cases hu : NormRows.usable inp k j = true
      · rw [if_pos hu]
        have hu5 := hu
        unfold NormRows.usable at hu5
        simp only [Bool.and_eq_true] at hu5
        obtain ⟨⟨⟨⟨hbp, him⟩, hnoi⟩, hnz⟩, hstar⟩ := hu5
        have hm : (NormRows.modelAt solver inp k j).isfinite = true
            ∨ NormRows.modelAt solver inp k j = F.nan := by
          unfold NormRows.modelAt
          apply sumF_finOrNan
          intro x hx
          rw [List.mem_map] at hx
          obtain ⟨ri, _, hxe⟩ := hx
          rw [← hxe]
          apply F.finOrNan_mul
          · exact F.finOrNan_mul (Or.inl (hM j ri.2)) (Or.inl hstar)
          · rcases List.getD_mem_or (NormRows.pvec solver inp k) ri.1 F.nan with h | h
            · exact Or.inl (hsol _ h)
            · exact Or.inr h
        apply F.div_finOrNan _ hnoi hnz
        exact F.finOrNan_add (Or.inl him) (F.finOrNan_neg hm)
      · rw [if_neg hu]
        exact Or.inr rfl
    have hiff := F.isnan_eq_not_isfinite hnr
    unfold task_normrows
    dsimp only
    simp only [hk, if_true]
    cases hflag : NormRows.flaggedRow solver inp k j
    · have hparts := hflag
      unfold NormRows.flaggedRow at hparts
      simp only [Bool.or_eq_false_iff] at hparts
      obtain ⟨hblt, hnan⟩ := hparts
      have hfin : (NormRows.normResRow solver inp k j).isfinite = true := by
        rw [hiff] at hnan
        simpa using hnan
      simp [hblt, hfin]
    · have hparts := hflag
      unfold NormRows.flaggedRow at hparts
      simp only [Bool.or_eq_true] at hparts
      have hdisj : F.blt inp.threshold
            (F.div (F.babs (NormRows.normResRow solver inp k j))
              (NormRows.meddevRow solver inp k)) = true
          ∨ (NormRows.normResRow solver inp k j).isfinite = false := by
        rcases hparts with h | h
        · exact Or.inl h
        · right
          rw [hiff] at h
          simpa using h
      simp [F.isnan, hdisj]
  · decide

/-- Witness for C3: in the spike scenario, pixel 15 (a spike) is newly
flagged. -/
theorem claim_C3_witness :
    ((task_normrows c3solver c3inp).new_badpix 0 (15 : Fin 20)).isnan = true
      ∧ (c3inp.badpix 0 (15 : Fin 20)).isnan = false :=
  ((claim_C3 c3solver c3inp 0 (by decide) (by decide) (by decide)).2 15).mpr (by decide)

/-- C4 (code bug): for a 2-D trace slice with zero usable pixels,
_task_normslice_2dspline does not short-circuit to all-NaN output — the
guard on line 2368 protects only one assignment, so line 2372 reads the
unassigned ravel_im_ifuy and the task raises UnboundLocalError.  (The 1-D
row variant does short-circuit, though its model output keeps the input
values rather than NaN.) -/
theorem claim_C4 {npix nifuy nwv : ℕ} (solver : Solver)
    (inp : NormSliceIn npix nifuy nwv) (h : NormSlice.wdf inp = []) :
    task_normslice_2dspline solver inp
      = Except.error "UnboundLocalError ravel_im_ifuy referenced before assignment" := by
  unfold task_normslice_2dspline
  rw [if_pos (by simp [h])]

/-- Witness for C4: the all-masked concrete slice raises. -/
theorem claim_C4_witness :
    task_normslice_2dspline (fun _ _ => []) c4inp
      = Except.error "UnboundLocalError ravel_im_ifuy referenced before assignment" :=
  claim_C4 (fun _ _ => []) c4inp (by decide)

theorem mem_insertSortedBy {a : Type} (le : a → a → Bool) (x y : a) (l : List a) :
    y ∈ insertSortedBy le x l ↔ y ∈ x :: l := by
  induction l with
  | nil => simp [insertSortedBy]
  | cons z zs ih =>
    unfold insertSortedBy
    by_cases h : le x z = true
    · simp [h]
    · simp only [if_neg h, List.mem_cons, ih]
      tauto

theorem mem_sortByF {a : Type} (le : a → a → Bool) (x : a) (l : List a) :
    x ∈ sortByF le l ↔ x ∈ l := by
  induction l with
  | nil => simp [sortByF]
  | cons z zs ih =>
    unfold sortByF
    rw [mem_insertSortedBy]
    simp [ih]

theorem sortByF_eq_nil {a : Type} (le : a → a → Bool) (l : List a) :
    sortByF le l = [] ↔ l = [] := by
  cases l with
  | nil => simp [sortByF]
  | cons z zs =>
    simp only [sortByF]
    constructor
    · intro h
      have : z ∈ insertSortedBy le z (sortByF le zs) := by
        rw [mem_insertSortedBy]; simp
      rw [h] at this
      cases this
    · intro h
      cases h

theorem getD_map_range {a : Type} (f : ℕ → a) (n i : ℕ) (d : a) (h : i < n) :
    ((List.range n).map f).getD i d = f i := by
  rw [List.getD_eq_getElem?_getD, List.getElem?_map, List.getElem?_range h]
  rfl

theorem F.isfinite_not_isnan {x : F} (h : x.isfinite = true) : x.isnan = false := by
  cases x <;> simp_all [F.isfinite, F.isnan]

theorem F.isfinite_exists {x : F} (h : x.isfinite = true) : ∃ q, x = F.fq q := by
  cases x <;> simp_all [F.isfinite]

theorem Q.isZero_false_of_isPos {q : Q} (h : Q.isPos q = true) : Q.isZero q = false := by
  rw [Bool.eq_false_iff]
  intro hz
  have h1 := (Q.isZero_iff q).mp hz
  have h2 := (Q.isPos_iff q).mp h
  linarith

theorem binOut_fst (clip : List F → List Bool) (sqrt : F → F)
    (sorted : List (F × F × F)) (w0 b : F) (i : ℕ) :
    (CombineSpec.binOut clip sqrt sorted w0 b i).1 = CombineSpec.binCenterAt w0 b i := by
  unfold CombineSpec.binOut
  dsimp only
  split
  · rfl
  · split
    · rfl
    · split <;> rfl

theorem binOut_of_empty (clip : List F → List Bool) (sqrt : F → F)
    (sorted : List (F × F × F)) (w0 b : F) (i : ℕ)
    (h : (CombineSpec.binSamplesAt sorted w0 b i).isEmpty = true) :
    CombineSpec.binOut clip sqrt sorted w0 b i
      = (CombineSpec.binCenterAt w0 b i, F.nan, F.nan) := by
  unfold CombineSpec.binOut
  simp only [h, if_true]

/-- C2 (amended: all wavelengths finite or NaN — a non-NaN infinite
wavelength survives the NaN filter and makes the Python int() of line 2854
raise — and a finite positive bin size): combine_spectrum returns without
raising; its wavelength grid is the strictly increasing bin-center grid
with constant spacing bin_size, and every bin containing zero samples
yields NaN flux and NaN error at the bin-center wavelength. -/
theorem claim_C2 (clip : List F → List Bool) (sqrt : F → F)
    (samples : List (F × F × F)) (qb : Q)
    (hfin : ∀ t ∈ samples, t.1.isfinite = true ∨ t.1.isnan = true)
    (hex : ∃ t ∈ samples, t.1.isfinite = true ∧ t.2.1.isfinite = true)
    (hb : Q.isPos qb = true) :
    ∃ t0 rest ws fs es,
      CombineSpec.sortedSamples samples = t0 :: rest ∧
      combine_spectrum clip sqrt samples (F.fq qb) = Except.ok (ws, fs, es) ∧
      (∀ i, i + 1 < ws.length →
        F.blt (ws.getD i F.nan) (ws.getD (i+1) F.nan) = true ∧
        F.beq (F.sub (ws.getD (i+1) F.nan) (ws.getD i F.nan)) (F.fq qb) = true) ∧
      (∀ i, i < ws.length →
        ws.getD i F.nan = CombineSpec.binCenterAt t0.1 (F.fq qb) i) ∧
      (∀ i, i < ws.length →
        (CombineSpec.binSamplesAt (t0 :: rest) t0.1 (F.fq qb) i).isEmpty = true →
        fs.getD i F.nan = F.nan ∧ es.getD i F.nan = F.nan) := by
  -- every sorted sample has a finite wavelength
  have hmem_sorted : ∀ t ∈ CombineSpec.sortedSamples samples, ∃ q, t.1 = F.fq q := by
    intro t ht
    unfold CombineSpec.sortedSamples at ht
    rw [mem_sortByF] at ht
    obtain ⟨hmem, hcond⟩ := List.mem_filter.mp ht
    rcases hfin t hmem with h | h
    · exact F.isfinite_exists h
    · rw [h] at hcond
      simp at hcond
  -- the sorted list is nonempty
  have hne : CombineSpec.sortedSamples samples ≠ [] := by
    obtain ⟨t, htmem, htw, htf⟩ := hex
    intro hcon
    unfold CombineSpec.sortedSamples at hcon
    rw [sortByF_eq_nil] at hcon
    have : t ∈ CombineSpec.kept samples := by
      unfold CombineSpec.kept
      rw [List.mem_filter]
      exact ⟨htmem, by simp [F.isfinite_not_isnan htw, F.isfinite_not_isnan htf]⟩
    rw [hcon] at this
    cases this
  obtain ⟨t0, rest, hsorted⟩ : ∃ t0 rest, CombineSpec.sortedSamples samples = t0 :: rest := by
    cases hs : CombineSpec.sortedSamples samples with
    | nil => exact absurd hs hne
    | cons a l => exact ⟨a, l, rfl⟩
  obtain ⟨qw0, hw0⟩ := hmem_sorted t0 (by rw [hsorted]; simp)
  obtain ⟨qwl, hwl⟩ := hmem_sorted ((t0 :: rest).getLast (by simp))
    (by rw [hsorted]; exact List.getLast_mem _)
  -- int() succeeds: the span and quotient are finite
  have hz : Q.isZero qb = false := Q.isZero_false_of_isPos hb
  have hdivspan : F.div (F.sub ((t0 :: rest).getLast (by simp)).1 t0.1) (F.fq qb)
      = F.fq (Q.div (Q.add qwl (Q.neg qw0)) qb) := by
    rw [hwl, hw0]
    show F.div (F.fq (Q.add qwl (Q.neg qw0))) (F.fq qb) = _
    unfold F.div
    dsimp only
    rw [if_neg (by simp [hz])]
  -- the run of combine_spectrum
  have hcenter : ∀ i : ℕ, CombineSpec.binCenterAt t0.1 (F.fq qb) i
      = F.fq (Q.add (Q.add qw0 (Q.mul (Q.ofInt i) qb)) (Q.div qb 2)) := by
    intro i
    unfold CombineSpec.binCenterAt CombineSpec.binStartAt
    rw [hw0]
    have hdiv2 : F.div (F.fq qb) (F.fq 2) = F.fq (Q.div qb 2) := by
      unfold F.div
      dsimp only
      rw [if_neg (by decide)]
    rw [hdiv2]
    rfl
  have hC : ∀ i : ℕ,
      (Q.add (Q.add qw0 (Q.mul (Q.ofInt i) qb)) (Q.div qb 2)).val
        = qw0.val + i * qb.val + qb.val / 2 := by
    intro i
    rw [Q.val_add, Q.val_add, Q.val_mul, Q.val_ofInt, Q.val_div qb 2 (by decide)]
    have h2 : ((2 : Q)).val = 2 := by
      rw [show (2 : Q) = Q.ofInt 2 from rfl, Q.val_ofInt]
      norm_num
    rw [h2]
    push_cast
    ring
  unfold combine_spectrum
  rw [hsorted]
  dsimp only
  rw [hdivspan]
  dsimp only [toIntF]
  refine ⟨t0, rest,
    ((List.range ((Int.tdiv (Q.div (Q.add qwl (Q.neg qw0)) qb).n
        (Q.div (Q.add qwl (Q.neg qw0)) qb).den + 1).toNat)).map
      (CombineSpec.binOut clip sqrt (t0 :: rest) t0.1 (F.fq qb))).map (fun o => o.1),
    ((List.range ((Int.tdiv (Q.div (Q.add qwl (Q.neg qw0)) qb).n
        (Q.div (Q.add qwl (Q.neg qw0)) qb).den + 1).toNat)).map
      (CombineSpec.binOut clip sqrt (t0 :: rest) t0.1 (F.fq qb))).map (fun o => o.2.1),
    ((List.range ((Int.tdiv (Q.div (Q.add qwl (Q.neg qw0)) qb).n
        (Q.div (Q.add qwl (Q.neg qw0)) qb).den + 1).toNat)).map
      (CombineSpec.binOut clip sqrt (t0 :: rest) t0.1 (F.fq qb))).map (fun o => o.2.2),
    rfl, rfl, ?_, ?_, ?_⟩
  all_goals
    generalize ((Int.tdiv (Q.div (Q.add qwl (Q.neg qw0)) qb).n
        (Q.div (Q.add qwl (Q.neg qw0)) qb).den + 1).toNat) = nb
  · -- strictly increasing with constant spacing bin_size
    intro i hib
    rw [List.length_map, List.length_map, List.length_range] at hib
    have hwsAt : ∀ m, m < nb →
        ((((List.range nb).map (CombineSpec.binOut clip sqrt (t0 :: rest) t0.1 (F.fq qb))).map
          (fun o => o.1)).getD m F.nan)
          = F.fq (Q.add (Q.add qw0 (Q.mul (Q.ofInt m) qb)) (Q.div qb 2)) := by
      intro m hm
      rw [List.map_map, getD_map_range _ _ _ _ hm]
      show (CombineSpec.binOut clip sqrt (t0 :: rest) t0.1 (F.fq qb) m).1 = _
      rw [binOut_fst, hcenter]
    rw [hwsAt i (by omega), hwsAt (i+1) (by omega)]
    have hqb := (Q.isPos_iff qb).mp hb
    constructor
    · show Q.blt _ _ = true
      rw [Q.blt_iff, hC, hC]
      have : (i : ℚ) < ((i : ℚ) + 1) := by linarith
      push_cast
      nlinarith
    · show Q.beq _ _ = true
      rw [Q.beq_iff, Q.val_add, Q.val_neg, hC, hC]
      push_cast
      ring
  · -- the grid is the bin-center grid
    intro i hib
    rw [List.length_map, List.length_map, List.length_range] at hib
    rw [List.map_map, getD_map_range _ _ _ _ hib]
    show (CombineSpec.binOut clip sqrt (t0 :: rest) t0.1 (F.fq qb) i).1 = _
    rw [binOut_fst]
  · -- empty bins give NaN flux and error
    intro i hib hemp
    rw [List.length_map, List.length_map, List.length_range] at hib
    constructor
    · rw [List.map_map, getD_map_range _ _ _ _ hib]
      show (CombineSpec.binOut clip sqrt (t0 :: rest) t0.1 (F.fq qb) i).2.1 = F.nan
      rw [binOut_of_empty clip sqrt _ _ _ _ hemp]
    · rw [List.map_map, getD_map_range _ _ _ _ hib]
      show (CombineSpec.binOut clip sqrt (t0 :: rest) t0.1 (F.fq qb) i).2.2 = F.nan
      rw [binOut_of_empty clip sqrt _ _ _ _ hemp]

/-- Counterexample to C2 as stated: this input has a sample of finite
wavelength and flux and bin_size = 1 > 0, yet combine_spectrum raises
(Python OverflowError from int() applied to an infinite quotient) instead
of returning a wavelength grid. -/
theorem claim_C2_counterexample :
    (∃ t ∈ c2samples, t.1.isfinite = true ∧ t.2.1.isfinite = true) ∧
    F.blt (F.fq 0) (F.fq 1) = true ∧
    combine_spectrum (fun l => l.map (fun _ => false)) sqrtTriv c2samples (F.fq 1)
      = Except.error "OverflowError" := by
  refine ⟨by decide, by decide, ?_⟩
  rfl

/-- Witness for C2 on a concrete two-sample input with bin_size 2. -/
theorem claim_C2_witness :
    ∃ t0 rest ws fs es,
      CombineSpec.sortedSamples c2okSamples = t0 :: rest ∧
      combine_spectrum (fun l => l.map (fun _ => false)) sqrtTriv c2okSamples
        (F.fq ⟨2, 0⟩) = Except.ok (ws, fs, es) ∧
      (∀ i, i + 1 < ws.length →
        F.blt (ws.getD i F.nan) (ws.getD (i+1) F.nan) = true ∧
        F.beq (F.sub (ws.getD (i+1) F.nan) (ws.getD i F.nan)) (F.fq ⟨2, 0⟩) = true) ∧
      (∀ i, i < ws.length →
        ws.getD i F.nan = CombineSpec.binCenterAt t0.1 (F.fq ⟨2, 0⟩) i) ∧
      (∀ i, i < ws.length →
        (CombineSpec.binSamplesAt (t0 :: rest) t0.1 (F.fq ⟨2, 0⟩) i).isEmpty = true →
        fs.getD i F.nan = F.nan ∧ es.getD i F.nan = F.nan) :=
  claim_C2 (fun l => l.map (fun _ => false)) sqrtTriv c2okSamples ⟨2, 0⟩
    (by decide) (by decide) (by decide)

theorem sumF_nan_absorb : ∀ l : List F, l.foldl F.add F.nan = F.nan := by
  intro l
  induction l with
  | nil => rfl
  | cons x xs ih => simpa [F.add] using ih

theorem sumF_nan_of_mem (l : List F) (h : ∃ x ∈ l, x.isnan = true) : sumF l = F.nan := by
  unfold sumF
  obtain ⟨x, hx, hnan⟩ := h
  rw [(F.isnan_iff x).mp hnan] at hx
  clear hnan
  generalize (F.fq 0 : F) = acc
  induction l generalizing acc with
  | nil => cases hx
  | cons y ys ih =>
    rcases List.mem_cons.mp hx with h | h
    · rw [List.foldl_cons, ← h]
      have : F.add acc F.nan = F.nan := by cases acc <;> rfl
      rw [this]
      exact sumF_nan_absorb ys
    · rw [List.foldl_cons]
      exact ih h _

theorem div_one_sqrt_nan (sqrt : F → F) (hs : sqrt F.nan = F.nan) (l : List F)
    (hl : sumF l = F.nan) : F.div (F.fq 1) (sqrt (sumF l)) = F.nan := by
  rw [hl, hs]
  rfl

/-- C10: combine_spectrum removes samples with NaN wavelength or NaN flux
but keeps samples with NaN error; a sample whose clip statistic is
non-finite is never masked by the sigma-clipping step; and on the concrete
three-sample bin, whatever mask the external sigma_clip returns, the
NaN-error sample survives and drives both the combined flux and the
combined error of the bin to NaN. -/
theorem claim_C10 :
    (∀ (samples : List (F × F × F)) (t : F × F × F),
        t ∈ CombineSpec.kept samples
          ↔ t ∈ samples ∧ t.1.isnan = false ∧ t.2.1.isnan = false) ∧
    (∀ (clipRes : List Bool) (pre : List ((F × F × F) × F)) (t : F × F × F) (snr : F),
        (t, snr) ∈ pre → snr.isfinite = false →
        (t, false) ∈ CombineSpec.applyClipMask clipRes pre) ∧
    (∀ (clip : List F → List Bool) (sqrt : F → F),
        CombineSpec.binOut clip sqrt (CombineSpec.sortedSamples c10samples)
            (F.fq 0) (F.fq 1) 0
          = CombineSpec.binOut (c10clip (clip c10snrStats)) sqrt
              (CombineSpec.sortedSamples c10samples) (F.fq 0) (F.fq 1) 0) ∧
    (∀ (cr : List Bool) (sqrt : F → F), SqrtOK sqrt →
        (CombineSpec.binOut (c10clip cr) sqrt (CombineSpec.sortedSamples c10samples)
          (F.fq 0) (F.fq 1) 0).2.1 = F.nan ∧
        (CombineSpec.binOut (c10clip cr) sqrt (CombineSpec.sortedSamples c10samples)
          (F.fq 0) (F.fq 1) 0).2.2 = F.nan) := by
  refine ⟨?_, ?_, ?_, ?_⟩
  · intro samples t
    unfold CombineSpec.kept
    rw [List.mem_filter]
    simp
  · intro clipRes pre
    induction pre generalizing clipRes with
    | nil => intro t snr h; cases h
    | cons hd tl ih =>
      intro t snr hmem hfin
      unfold CombineSpec.applyClipMask
      rcases List.mem_cons.mp hmem with h | h
      · have hhd : hd = (t, snr) := h.symm
        subst hhd
        rw [if_neg (by simp [hfin])]
        simp
      · by_cases hf : hd.2.isfinite = true
        · rw [show hd = (hd.1, hd.2) from rfl, if_pos hf]
          exact List.mem_cons_of_mem _ (ih (clipRes.drop 1) t snr h hfin)
        · rw [show hd = (hd.1, hd.2) from rfl, if_neg hf]
          exact List.mem_cons_of_mem _ (ih clipRes t snr h hfin)
  · intro clip sqrt
    rfl
  · intro cr sqrt hsq
    rcases cr with _ | ⟨c1, cr1⟩
    · exact ⟨by rfl, div_one_sqrt_nan sqrt hsq.1 _ (by rfl)⟩
    rcases cr1 with _ | ⟨c2, cr2⟩
    · cases c1 <;> exact ⟨by rfl, div_one_sqrt_nan sqrt hsq.1 _ (by rfl)⟩
    · cases c1 <;> cases c2 <;>
        exact ⟨by rfl, div_one_sqrt_nan sqrt hsq.1 _ (by rfl)⟩

/-- Witness for C10: with the stub square root and an empty clip mask, the
C10 bin produces NaN flux and NaN error. -/
theorem claim_C10_witness :
    (CombineSpec.binOut (c10clip []) sqrtTriv (CombineSpec.sortedSamples c10samples)
      (F.fq 0) (F.fq 1) 0).2.1 = F.nan ∧
    (CombineSpec.binOut (c10clip []) sqrtTriv (CombineSpec.sortedSamples c10samples)
      (F.fq 0) (F.fq 1) 0).2.2 = F.nan :=
  claim_C10.2.2.2 [] sqrtTriv sqrtTriv_ok

/-- C5 (amended: the flux and error of a cell meeting the pixel count need
not be finite — e.g. they are NaN whenever the interpolated PSF model
vanishes or is NaN on every selected pixel): a cell with fewer than
N_pix_min usable pixels is NaN/NaN, and a cell meeting the count holds the
inverse-variance-weighted matched-filter amplitude and its
residual-rescaled error. -/
theorem claim_C5 {npts : ℕ} (sqrt : F → F) (inp : CubeTaskIn npts) (ra dec : F) :
    (natLtF (BuildCube.usableList inp ra dec).length inp.N_pix_min = true →
      BuildCube.cell sqrt inp ra dec = (F.nan, F.nan)) ∧
    (natLtF (BuildCube.usableList inp ra dec).length inp.N_pix_min = false →
      BuildCube.cell sqrt inp ra dec
        = (BuildCube.mfflux inp ra dec, BuildCube.mffluxerrScaled sqrt inp ra dec)) := by
  unfold BuildCube.cell
  constructor <;> intro h <;> simp [h]

/-- Counterexample to C5 as stated: this cell passes the N_pix_min screen
(2 usable pixels, N_pix_min = 2) yet its matched-filter flux is NaN (the
weighted denominator is zero), so the emitted values are not finite. -/
theorem claim_C5_counterexample :
    natLtF (BuildCube.usableList c5inp (F.fq 0) (F.fq 0)).length c5inp.N_pix_min = false ∧
    ((BuildCube.cell sqrtTriv c5inp (F.fq 0) (F.fq 0)).1).isnan = true :=
  ⟨by decide, by decide⟩

/-- Witness for C5 at the concrete cell meeting the pixel count. -/
theorem claim_C5_witness :
    BuildCube.cell sqrtTriv c5inp (F.fq 0) (F.fq 0)
      = (BuildCube.mfflux c5inp (F.fq 0) (F.fq 0),
         BuildCube.mffluxerrScaled sqrtTriv c5inp (F.fq 0) (F.fq 0)) :=
  (claim_C5 sqrtTriv c5inp (F.fq 0) (F.fq 0)).2 (by decide)

theorem foldl_append_eq_map {α β : Type} (f : α → β) (l : List α) :
    ∀ acc : List β, l.foldl (fun a i => a ++ [f i]) acc = acc ++ l.map f := by
  induction l with
  | nil => intro acc; simp
  | cons x xs ih => intro acc; simp [ih]

theorem writeOuts_eq_applyWrites (wv : ℕ) (acc : ℕ × ℕ × ℕ → F × F)
    (outs : List (ℕ × ℕ × F × F)) :
    writeOuts wv acc outs
      = applyWrites acc (outs.map (fun o => ((wv, o.2.1, o.1), o.2.2))) := by
  unfold writeOuts applyWrites
  rw [List.foldl_map]

theorem applyWrites_append (init : ℕ × ℕ × ℕ → F × F)
    (ws1 ws2 : List ((ℕ × ℕ × ℕ) × (F × F))) :
    applyWrites init (ws1 ++ ws2) = applyWrites (applyWrites init ws1) ws2 := by
  unfold applyWrites
  rw [List.foldl_append]

theorem mergeCube_eq_applyWrites :
    ∀ (pairs : List (ℕ × List (ℕ × ℕ × F × F))) (init : ℕ × ℕ × ℕ → F × F),
      pairs.foldl (fun acc pr => writeOuts pr.1 acc pr.2) init
        = applyWrites init (cubeWrites pairs) := by
  intro pairs
  induction pairs with
  | nil => intro init; rfl
  | cons pr rest ih =>
    intro init
    rw [List.foldl_cons, ih]
    rw [show cubeWrites (pr :: rest)
      = (pr.2.map (fun o => ((pr.1, o.2.1, o.1), o.2.2))) ++ cubeWrites rest by
        simp [cubeWrites]]
    rw [applyWrites_append, writeOuts_eq_applyWrites]

theorem cubeKeys_eq_map_fst (pairs : List (ℕ × List (ℕ × ℕ × F × F))) :
    cubeKeys pairs = (cubeWrites pairs).map Prod.fst := by
  unfold cubeKeys cubeWrites
  induction pairs with
  | nil => rfl
  | cons pr rest ih =>
    rw [List.flatMap_cons, List.flatMap_cons, List.map_append, ← ih, List.map_map]
    rfl

theorem applyWrites_perm {ws1 ws2 : List ((ℕ × ℕ × ℕ) × (F × F))} (hp : ws1.Perm ws2) :
    (ws1.map Prod.fst).Nodup → ∀ init, applyWrites init ws1 = applyWrites init ws2 := by
  induction hp with
  | nil => intro _ _; rfl
  | cons a p ih =>
    intro hnd init
    rw [List.map_cons] at hnd
    unfold applyWrites
    simp only [List.foldl_cons]
    exact ih (List.nodup_cons.mp hnd).2 _
  | swap x y l =>
    intro hnd init
    unfold applyWrites
    simp only [List.foldl_cons]
    have hxy : y.1 ≠ x.1 := by
      simp only [List.map_cons, List.nodup_cons, List.mem_cons] at hnd
      exact fun h => hnd.1 (Or.inl h)
    congr 1
    funext key
    by_cases h1 : key = x.1 <;> by_cases h2 : key = y.1
    · exact absurd (h1.symm.trans h2).symm hxy
    · subst h1
      simp [show x.1 ≠ y.1 from fun hh => hxy hh.symm]
    · subst h2
      simp [hxy]
    · simp [h1, h2]
  | trans p1 p2 ih1 ih2 =>
    intro hnd init
    rw [ih1 hnd init, ih2 (((p1.map Prod.fst).nodup_iff).mp hnd) init]

/-- C6: build_cube with a worker pool and without one produce identical flux
and flux-error cubes (pool.map returns results in input order regardless of
completion order), and the merge, keyed by explicit (wavelength, dec, ra)
indices, is invariant under any permutation of the per-task results as long
as the written keys are distinct. -/
theorem claim_C6 :
    (∀ (npts : ℕ) (sqrt : F → F) (inputs : List (CubeTaskIn npts)),
        build_cube_par sqrt inputs = build_cube_seq sqrt inputs) ∧
    (∀ pairs1 pairs2 : List (ℕ × List (ℕ × ℕ × F × F)),
        pairs1.Perm pairs2 → (cubeKeys pairs1).Nodup →
        mergeCube pairs1 = mergeCube pairs2) := by
  constructor
  · intro npts sqrt inputs
    unfold build_cube_par build_cube_seq
    rw [foldl_append_eq_map]
    rfl
  · intro pairs1 pairs2 hp hnd
    unfold mergeCube
    rw [mergeCube_eq_applyWrites, mergeCube_eq_applyWrites]
    apply applyWrites_perm
    · exact List.Perm.flatMap_right _ hp
    · rw [← cubeKeys_eq_map_fst]
      exact hnd

/-- Witness for C6: swapping two concrete per-wavelength results does not
change the merged cube. -/
theorem claim_C6_witness :
    mergeCube [(0, [(0, 0, F.fq 1, F.fq 2)]), (1, [(0, 0, F.fq 3, F.fq 4)])]
      = mergeCube [(1, [(0, 0, F.fq 3, F.fq 4)]), (0, [(0, 0, F.fq 1, F.fq 2)])] :=
  claim_C6.2 _ _ (by decide) (by decide)

theorem wpsf_go_paras_unwritten {npts npsf : ℕ} (inp : WpsfIn npts npsf) :
    ∀ (l : List (ℕ × Sector)) (st : (ℕ → F × F × F × F × F) × (Fin npts → F)) (k : ℕ),
      k ∉ l.map Prod.fst → (Wpsf.go inp l st).1 k = st.1 k := by
  intro l
  induction l with
  | nil => intro st k _; rfl
  | cons hd tl ih =>
    obtain ⟨sid, s⟩ := hd
    intro st k hk
    rw [List.map_cons, List.mem_cons] at hk
    push_neg at hk
    unfold Wpsf.go
    by_cases hs : Wpsf.skip inp s = true
    · rw [if_pos hs]
      exact ih st k hk.2
    · rw [if_neg hs]
      rw [ih _ k hk.2]
      simp only []
      rw [if_neg hk.1]

theorem wpsf_go_model_untouched {npts npsf : ℕ} (inp : WpsfIn npts npsf) :
    ∀ (l : List (ℕ × Sector)) (st : (ℕ → F × F × F × F × F) × (Fin npts → F)) (p : Fin npts),
      (∀ ks ∈ l, Wpsf.skip inp ks.2 = false → Wpsf.scSel inp ks.2 p = false) →
      (Wpsf.go inp l st).2 p = st.2 p := by
  intro l
  induction l with
  | nil => intro st p _; rfl
  | cons hd tl ih =>
    obtain ⟨sid, s⟩ := hd
    intro st p hl
    unfold Wpsf.go
    by_cases hs : Wpsf.skip inp s = true
    · rw [if_pos hs]
      exact ih st p (fun ks hks => hl ks (by simp [hks]))
    · rw [if_neg hs]
      rw [ih _ p (fun ks hks => hl ks (by simp [hks]))]
      simp only []
      rw [if_neg (by simp [hl (sid, s) (by simp) (by simpa using hs)])]

theorem wpsf_go_paras_at {npts npsf : ℕ} (inp : WpsfIn npts npsf) :
    ∀ (l : List (ℕ × Sector)) (st : (ℕ → F × F × F × F × F) × (Fin npts → F))
      (k : ℕ) (s : Sector), (k, s) ∈ l → (l.map Prod.fst).Nodup →
      (Wpsf.go inp l st).1 k
        = if Wpsf.skip inp s = true then st.1 k else Wpsf.sectorParas inp s := by
  intro l
  induction l with
  | nil => intro st k s h; cases h
  | cons hd tl ih =>
    obtain ⟨sid, s'⟩ := hd
    intro st k s hmem hnd
    rw [List.map_cons, List.nodup_cons] at hnd
    rcases List.mem_cons.mp hmem with h | h
    · obtain ⟨hk, hs⟩ := Prod.mk.injEq .. ▸ h
      subst hk
      subst hs
      unfold Wpsf.go
      by_cases hsk : Wpsf.skip inp s = true
      · rw [if_pos hsk, wpsf_go_paras_unwritten inp tl st k hnd.1, if_pos hsk]
      · rw [if_neg hsk, wpsf_go_paras_unwritten inp tl _ k hnd.1]
        simp [hsk]
    · have hkne : k ≠ sid := by
        intro hcon
        have hmm : k ∈ tl.map Prod.fst := List.mem_map_of_mem Prod.fst h
        rw [hcon] at hmm
        exact hnd.1 hmm
      unfold Wpsf.go
      by_cases hsk : Wpsf.skip inp s' = true
      · rw [if_pos hsk]
        exact ih st k s h hnd.2
      · rw [if_neg hsk]
        rw [ih _ k s h hnd.2]
        simp only []
        rw [if_neg hkne]

/-- C7 (amended: a sector is skipped with all-NaN parameters and untouched
NaN model pixels when it has fewer than 3 finite PSF support points, no
usable science data point in its padded region, or no science data point at
all — usable or not — in its unpadded region; the unpadded emptiness test
of lines 3072-3075 does not screen on the bad-pixel mask): skipped sectors
keep the NaN parameter row; their model pixels stay NaN provided the
unpadded sector regions are pairwise disjoint; sectors that are not skipped
are still processed and receive their fitted parameters. -/
theorem claim_C7 {npts npsf : ℕ} (inp : WpsfIn npts npsf)
    (hdisj : ∀ (i j : ℕ) (hi : i < inp.sectors.length) (hj : j < inp.sectors.length),
      i ≠ j → ∀ p : Fin npts,
        ¬(Wpsf.scSel inp (inp.sectors.get ⟨i, hi⟩) p = true
          ∧ Wpsf.scSel inp (inp.sectors.get ⟨j, hj⟩) p = true))
    (sid : ℕ) (hsid : sid < inp.sectors.length)
    (hskip : Wpsf.skip inp (inp.sectors.get ⟨sid, hsid⟩) = true) :
    ((fit_wpsf_task inp).1 sid = Wpsf.allNanParas) ∧
    (∀ p : Fin npts, Wpsf.scSel inp (inp.sectors.get ⟨sid, hsid⟩) p = true →
      (fit_wpsf_task inp).2 p = F.nan) ∧
    (∀ (j : ℕ) (hj : j < inp.sectors.length),
      Wpsf.skip inp (inp.sectors.get ⟨j, hj⟩) = false →
      (fit_wpsf_task inp).1 j = Wpsf.sectorParas inp (inp.sectors.get ⟨j, hj⟩)) := by
  have hnd : (inp.sectors.enum.map Prod.fst).Nodup := by
    rw [List.enum_map_fst]
    exact List.nodup_range _
  have hmem : ∀ (j : ℕ) (hj : j < inp.sectors.length),
      (j, inp.sectors.get ⟨j, hj⟩) ∈ inp.sectors.enum := by
    intro j hj
    rw [List.mk_mem_enum_iff_get?]
    exact List.get?_eq_get hj
  refine ⟨?_, ?_, ?_⟩
  · unfold fit_wpsf_task
    rw [wpsf_go_paras_at inp _ _ sid _ (hmem sid hsid) hnd, if_pos hskip]
  · intro p hp
    unfold fit_wpsf_task
    rw [wpsf_go_model_untouched]
    intro ks hks hnskip
    obtain ⟨hlen, hget⟩ := List.get?_eq_some.mp (List.mk_mem_enum_iff_get?.mp
      (show (ks.1, ks.2) ∈ inp.sectors.enum from hks))
    by_cases hj : ks.1 = sid
    · subst hj
      have hskip2 : Wpsf.skip inp ks.2 = true := by
        rw [← hget]
        exact hskip
      rw [hnskip] at hskip2
      cases hskip2
    · rw [Bool.eq_false_iff]
      intro hc
      exact hdisj sid ks.1 hsid hlen (fun hh => hj hh.symm) p ⟨hp, hget ▸ hc⟩
  · intro j hj hnskip
    unfold fit_wpsf_task
    rw [wpsf_go_paras_at inp _ _ j _ (hmem j hj) hnd, hnskip]
    simp

/-- Counterexample to C7 as stated: the single sector of c7inp has three
finite PSF support points and no usable science data point in its unpadded
region (its only unpadded point has NaN Zbad), yet the sector is processed:
its parameter row is (a0, a, 0, 0, 0) — not all NaN — and the model pixel
in its unpadded region is written non-NaN. -/
theorem claim_C7_counterexample :
    (∀ p : Fin 2, ¬(Wpsf.scSel c7inp c7sector p = true ∧ (c7inp.Zbad p).isfinite = true)) ∧
    3 ≤ (Wpsf.whereW c7inp).length ∧
    ((fit_wpsf_task c7inp).1 0).2.2.1 = F.fq 0 ∧
    (fit_wpsf_task c7inp).1 0 ≠ Wpsf.allNanParas ∧
    ((fit_wpsf_task c7inp).2 1).isnan = false :=
  ⟨by decide, by decide, by decide, by decide, by decide⟩

/-- Witness for C7: with only two finite PSF support points the sector of
c7skipInp is skipped and keeps the all-NaN parameter row. -/
theorem claim_C7_witness :
    (fit_wpsf_task c7skipInp).1 0 = Wpsf.allNanParas :=
  (claim_C7 c7skipInp
    (fun i j hi hj hne _ _ => hne (by
      have h1 : i < 1 := hi
      have h2 : j < 1 := hj
      omega))
    0 (by decide) (by decide)).1
